import Mathlib

/-!
Verification development for the workday website scanner repository.

The model below is a shallow embedding of the crawl-and-classify pipeline:

* src/app/api/website/scan/route.ts     — fetchPage, extractLinks, crawlWebsite, POST
* src/app/api/website/analyze/route.ts  — findLegacySnippets, fetchPageContent, POST

JavaScript strings are modelled as List Char (the inputs of interest are
ASCII, where UTF-16 code units and characters coincide).  The concrete
regular expressions of the source are compiled by hand into executable
matchers with the exact JS semantics they have (word boundaries via
[A-Za-z0-9_], case-insensitive comparison, greedy/lazy repetition, global
scan with lastIndex advancement).  External collaborators (axios, the
OpenAI completion call, JSON.parse) are oracles passed as function
arguments; everything the repository itself computes is a Lean definition.
-/

namespace Workday

/-- JS toLowerCase restricted to ASCII letters, which is how the case
insensitive regex flag compares characters for the patterns in the source. -/
def jsToLower (c : Char) : Char :=
  if 'A' ≤ c ∧ c ≤ 'Z' then Char.ofNat (c.toNat + 32) else c

/-- JS regex word character class backslash-w, exactly [A-Za-z0-9_]. -/
def isWordChar (c : Char) : Bool :=
  ('a' ≤ c && c ≤ 'z') || ('A' ≤ c && c ≤ 'Z') || ('0' ≤ c && c ≤ '9') || c = '_'

/-- JS regex whitespace class backslash-s on the characters that can occur in
the inputs modelled here: space, tab, LF, VT, FF, CR, NBSP, BOM. -/
def isJsSpace (c : Char) : Bool :=
  c = ' ' || c = '\t' || c = '\n' || c = '\r' ||
  c.toNat = 11 || c.toNat = 12 || c.toNat = 160 || c.toNat = 65279

/-- Case-insensitive character comparison as used by the i regex flag. -/
def ciEq (a b : Char) : Bool := jsToLower a = jsToLower b

/-- Case-insensitive literal match of a pattern against a prefix of a text. -/
def matchCI : List Char → List Char → Bool
  | [], _ => true
  | _ :: _, [] => false
  | p :: ps, c :: cs => ciEq p c && matchCI ps cs

/-- Case-insensitive literal match at an index of a text. -/
def matchCIAt (pat : List Char) (s : List Char) (i : Nat) : Bool :=
  matchCI pat (s.drop i)

/-- JS regex word boundary test on the left of index i. -/
def wordBoundaryBefore (s : List Char) (i : Nat) : Bool :=
  if i = 0 then true else !(isWordChar (s.getD (i - 1) ' '))

/-- JS regex word boundary test at index j, for a pattern whose last matched
character is a word character: the character at j must not be a word
character (out of range counts as a boundary). -/
def boundaryAfter (s : List Char) (j : Nat) : Bool :=
  !(isWordChar (s.getD j ' '))

/-- Length of the run of characters satisfying p starting at index i. -/
def runLength (p : Char → Bool) (s : List Char) (i : Nat) : Nat :=
  ((s.drop i).takeWhile p).length

/-- All the positions (with match lengths) at which a deterministic matcher
succeeds, in increasing position order, overlaps included. -/
def allMatches (matchAt : List Char → Nat → Option Nat) (s : List Char) :
    List (Nat × Nat) :=
  (List.range s.length).filterMap fun i => (matchAt s i).map fun L => (i, L)

/-- Selection of matches the JS global exec loop keeps: repeatedly the first
match starting at or after the current lastIndex, which then advances to the
end of that match. -/
def applyGreedy : Nat → List (Nat × Nat) → List (Nat × Nat)
  | _, [] => []
  | p, (i, L) :: rest =>
      if p ≤ i then (i, L) :: applyGreedy (i + L) rest else applyGreedy p rest

/-- Matches found by a JS global regex exec loop over a text. -/
def scanMatches (matchAt : List Char → Nat → Option Nat) (s : List Char) :
    List (Nat × Nat) :=
  applyGreedy 0 (allMatches matchAt s)

/-- JS String.prototype.slice with already-clamped bounds. -/
def jsSlice (s : List Char) (a b : Nat) : List Char := (s.take b).drop a

/-- Worker for collapseWs; the flag records whether the previous character
was whitespace already replaced by a single space. -/
def collapseWsGo : Bool → List Char → List Char
  | _, [] => []
  | prevSpace, c :: cs =>
      if isJsSpace c then
        if prevSpace then collapseWsGo true cs else ' ' :: collapseWsGo true cs
      else c :: collapseWsGo false cs

/-- JS replace of one-or-more whitespace by a single space, globally. -/
def collapseWs (s : List Char) : List Char := collapseWsGo false s

/-- JS String.prototype.trim. -/
def jsTrim (s : List Char) : List Char :=
  ((s.dropWhile isJsSpace).reverse.dropWhile isJsSpace).reverse

/-- Context snippet emitted by the reference detector of analyze/route.ts:
the matched text window and the match offset. -/
structure SnippetHit where
  snippet : String
  offset : Nat
deriving DecidableEq, Repr

/-- Matcher for the direct product-name rule, the regex
word-boundary (cougar whitespace-star web | cougarweb) word-boundary with
flags g and i.  The first alternative with greedy whitespace subsumes the
second; after the literal cougar only the maximal whitespace run can be
followed by web, since web starts with a non-whitespace character. -/
def cougarMatchLenAt (s : List Char) (i : Nat) : Option Nat :=
  if wordBoundaryBefore s i && matchCIAt "cougar".data s i then
    let k := i + 6 + runLength isJsSpace s (i + 6)
    if matchCIAt "web".data s k && boundaryAfter s (k + 3) then
      some (k + 3 - i)
    else none
  else none

/-- Matcher for the ambiguous legacy term, the regex
word-boundary colleague word-boundary with flags g and i. -/
def colleagueMatchLenAt (s : List Char) (i : Nat) : Option Nat :=
  if wordBoundaryBefore s i && matchCIAt "colleague".data s i &&
      boundaryAfter s (i + 9) then
    some 9
  else none

/-- Disambiguation vocabulary COLLEGUE_SYSTEM_WORDS of analyze/route.ts:
word-boundary (student|system|ERP|SIS|Banner|registration|HR|finance|payroll|portal|information) word-boundary, flag i. -/
def systemWords : List (List Char) :=
  ["student".data, "system".data, "erp".data, "sis".data, "banner".data,
   "registration".data, "hr".data, "finance".data, "payroll".data,
   "portal".data, "information".data]

/-- Test of the disambiguation vocabulary regex against a window, the
COLLEGUE_SYSTEM_WORDS.test call of the source. -/
def hasSystemWord (win : List Char) : Bool :=
  (List.range win.length).any fun i =>
    systemWords.any fun w =>
      wordBoundaryBefore win i && matchCIAt w win i &&
        boundaryAfter win (i + w.length)

/-- Snippet text for a direct-rule match at offset i: slice from i - 80 to
i + 120 clamped, whitespace collapsed, trimmed. -/
def cougarSnippetAt (s : List Char) (i : Nat) : String :=
  ⟨jsTrim (collapseWs (jsSlice s (i - 80) (min s.length (i + 120))))⟩

/-- Window around a colleague match at offset i: slice from i - 100 to
i + 100 clamped. -/
def colleagueWindow (s : List Char) (i : Nat) : List Char :=
  jsSlice s (i - 100) (min s.length (i + 100))

/-- Snippet text for a colleague-rule match at offset i: the window with
whitespace collapsed and trimmed. -/
def colleagueSnippetAt (s : List Char) (i : Nat) : String :=
  ⟨jsTrim (collapseWs (colleagueWindow s i))⟩

/-- One iteration of the direct-rule loop of findLegacySnippets: keep the
snippet when it is longer than 20 characters and not an exact duplicate. -/
def cougarStep (text : List Char) (acc : List SnippetHit) (m : Nat × Nat) :
    List SnippetHit :=
  if 20 < (cougarSnippetAt text m.1).length &&
      !(acc.any fun r => r.snippet = cougarSnippetAt text m.1) then
    acc ++ [⟨cougarSnippetAt text m.1, m.1⟩]
  else acc

/-- One iteration of the colleague loop of findLegacySnippets: the match
counts only when the 200-character window contains a vocabulary word; the
snippet is then the collapsed trimmed window, kept under the same length
and duplicate conditions. -/
def colleagueStep (text : List Char) (acc : List SnippetHit) (m : Nat × Nat) :
    List SnippetHit :=
  if hasSystemWord (colleagueWindow text m.1) then
    if 20 < (colleagueSnippetAt text m.1).length &&
        !(acc.any fun r => r.snippet = colleagueSnippetAt text m.1) then
      acc ++ [⟨colleagueSnippetAt text m.1, m.1⟩]
    else acc
  else acc

/-- First pass of findLegacySnippets: the direct product-name rule. -/
def cougarPass (text : List Char) : List SnippetHit :=
  (scanMatches cougarMatchLenAt text).foldl (cougarStep text) []

/-- Second pass of findLegacySnippets: the windowed disambiguation rule,
accumulating onto the results of the first pass. -/
def colleaguePass (text : List Char) (acc : List SnippetHit) : List SnippetHit :=
  (scanMatches colleagueMatchLenAt text).foldl (colleagueStep text) acc

/-- findLegacySnippets of analyze/route.ts.  The html argument is accepted
and ignored exactly as in the source, which scans only the text. -/
def findLegacySnippets (html text : String) : List SnippetHit :=
  colleaguePass text.data (cougarPass text.data)

/-! ### Fold helper lemmas for the detector -/

theorem mem_cougarStep {text : List Char} {acc : List SnippetHit}
    {m : Nat × Nat} {x : SnippetHit} (hx : x ∈ acc) :
    x ∈ cougarStep text acc m := by
  unfold cougarStep
  split
  · exact List.mem_append_left _ hx
  · exact hx

theorem mem_foldl_cougarStep {text : List Char} {l : List (Nat × Nat)}
    {acc : List SnippetHit} {x : SnippetHit} (hx : x ∈ acc) :
    x ∈ l.foldl (cougarStep text) acc := by
  induction l generalizing acc with
  | nil => exact hx
  | cons m rest ih => exact ih (mem_cougarStep hx)

theorem mem_colleagueStep {text : List Char} {acc : List SnippetHit}
    {m : Nat × Nat} {x : SnippetHit} (hx : x ∈ acc) :
    x ∈ colleagueStep text acc m := by
  unfold colleagueStep
  split
  · split
    · exact List.mem_append_left _ hx
    · exact hx
  · exact hx

theorem mem_foldl_colleagueStep {text : List Char} {l : List (Nat × Nat)}
    {acc : List SnippetHit} {x : SnippetHit} (hx : x ∈ acc) :
    x ∈ l.foldl (colleagueStep text) acc := by
  induction l generalizing acc with
  | nil => exact hx
  | cons m rest ih => exact ih (mem_colleagueStep hx)

theorem colleagueFold_skip {text : List Char} {l : List (Nat × Nat)}
    {acc : List SnippetHit}
    (h : ∀ m ∈ l, hasSystemWord (colleagueWindow text m.1) = false) :
    l.foldl (colleagueStep text) acc = acc := by
  induction l generalizing acc with
  | nil => rfl
  | cons m rest ih =>
      have hm : hasSystemWord (colleagueWindow text m.1) = false :=
        h m (List.mem_cons_self m rest)
      have hstep : colleagueStep text acc m = acc := by
        unfold colleagueStep
        simp [hm]
      rw [List.foldl_cons, hstep]
      exact ih fun x hx => h x (List.mem_cons_of_mem m hx)

/-- Invariant used for the amended direct-rule claim: once a snippet string
is represented in the accumulator it stays represented, and processing a
match whose snippet is long enough makes it represented. -/
theorem cougarFold_represented {text : List Char} {l : List (Nat × Nat)}
    {acc : List SnippetHit} {m : Nat × Nat} (hm : m ∈ l)
    (hlen : 20 < (cougarSnippetAt text m.1).length) :
    ∃ hit ∈ l.foldl (cougarStep text) acc,
      hit.snippet = cougarSnippetAt text m.1 := by
  induction l generalizing acc with
  | nil => cases hm
  | cons a rest ih =>
      rcases List.mem_cons.mp hm with rfl | hmem
      · by_cases hdup : (acc.any fun r => r.snippet = cougarSnippetAt text m.1) = true
        · rcases List.any_eq_true.mp hdup with ⟨hit, hhit, heq⟩
          refine ⟨hit, ?_, by simpa using heq⟩
          rw [List.foldl_cons]
          exact mem_foldl_cougarStep (mem_cougarStep hhit)
        · have hcond : (20 < (cougarSnippetAt text m.1).length &&
              !(acc.any fun r => r.snippet = cougarSnippetAt text m.1)) = true := by
            rw [Bool.and_eq_true, Bool.not_eq_true']
            exact ⟨decide_eq_true hlen, by simpa using hdup⟩
          have hstep : cougarStep text acc m =
              acc ++ [⟨cougarSnippetAt text m.1, m.1⟩] := by
            unfold cougarStep
            rw [if_pos hcond]
          refine ⟨⟨cougarSnippetAt text m.1, m.1⟩, ?_, rfl⟩
          rw [List.foldl_cons, hstep]
          exact mem_foldl_cougarStep (List.mem_append_right _ (by simp))
      · exact ih hmem

/-! ### URL model

The source canonicalizes URLs with the WHATWG URL class: new URL(u), then
hash set to the empty string, then href, then one trailing slash removed by
replace with the anchored slash regex.  The model below embeds the WHATWG
parser and serializer on the fragment of absolute http and https URLs whose
components contain only characters that the WHATWG serializer emits
unchanged (no percent-encoding, no userinfo, no explicit port, ASCII
hosts).  On this fragment the serializer is the identity on components,
hosts are lowercased, and an empty path serializes as a single slash,
exactly as in the WHATWG standard. -/

/-- Punctuation accepted unencoded in URL paths by the modelled fragment. -/
def urlPunct : List Char :=
  ['-', '.', '_', '~', '!', '$', '&', '(', ')', '*', '+', ',', ';', '=', '%']

/-- Characters the model accepts in a path: letters, digits, the unreserved
punctuation, the path separator and the extra path characters colon and at. -/
def pathCharOk (c : Char) : Bool :=
  c.isAlpha || c.isDigit || urlPunct.contains c || c = '/' || c = ':' || c = '@'

/-- Characters the model accepts in a (lowercased) host: lowercase letters,
digits and the unreserved punctuation. -/
def hostCharOk (c : Char) : Bool :=
  ('a' ≤ c && c ≤ 'z') || c.isDigit || urlPunct.contains c

/-- Characters the model accepts in a query. -/
def queryCharOk (c : Char) : Bool := pathCharOk c || c = '?'

/-- Split of a character list at the first occurrence of a character:
the part before it, and optionally the part after it. -/
def splitAtChar (ch : Char) : List Char → List Char × Option (List Char)
  | [] => ([], none)
  | c :: cs =>
      if c = ch then ([], some cs)
      else
        let r := splitAtChar ch cs
        (c :: r.1, r.2)

/-- Scheme recognition of the model parser: case-insensitive http or https
followed by colon slash slash, stored lowercased as WHATWG does.  Other
schemes are outside the modelled fragment. -/
def stripScheme (s : List Char) : Option (List Char × List Char) :=
  if matchCI "https://".data s then some ("https".data, s.drop 8)
  else if matchCI "http://".data s then some ("http".data, s.drop 7)
  else none

/-- Parsed URL: scheme, lowercased host, path (serialized with a leading
slash), optional query, optional fragment. -/
structure UrlObj where
  scheme : List Char
  host : List Char
  path : List Char
  query : Option (List Char)
  frag : Option (List Char)
deriving DecidableEq, Repr

/-- Query component of a serialized URL. -/
def queryPart : Option (List Char) → List Char
  | some q => '?' :: q
  | none => []

/-- Fragment component of a serialized URL. -/
def fragPart : Option (List Char) → List Char
  | some f => '#' :: f
  | none => []

/-- Scheme, authority and path part of a serialized URL. -/
def hrefPre (u : UrlObj) : List Char :=
  u.scheme ++ ':' :: '/' :: '/' :: (u.host ++ u.path)

/-- WHATWG href serialization on the modelled fragment. -/
def hrefChars (u : UrlObj) : List Char :=
  hrefPre u ++ queryPart u.query ++ fragPart u.frag

/-- Path recorded by the parser from the remainder after the host: an
absent remainder parses as the root path, as WHATWG serializes an empty
path of a special scheme as a single slash. -/
def coreParsedPath : Option (List Char) → List Char
  | none => ['/']
  | some p => '/' :: p

/-- Parser for the fragment-free part of a URL; the produced object always
has an empty fragment. -/
def parseCore (core : List Char) : Option UrlObj :=
  match stripScheme (splitAtChar '?' core).1 with
  | none => none
  | some sr =>
      if (splitAtChar '/' sr.2).1.isEmpty then none
      else if !(((splitAtChar '/' sr.2).1.map jsToLower).all hostCharOk) then none
      else if !((coreParsedPath (splitAtChar '/' sr.2).2).all pathCharOk) then none
      else
        match (splitAtChar '?' core).2 with
        | some qq =>
            if qq.all queryCharOk then
              some ⟨sr.1, (splitAtChar '/' sr.2).1.map jsToLower,
                coreParsedPath (splitAtChar '/' sr.2).2, some qq, none⟩
            else none
        | none =>
            some ⟨sr.1, (splitAtChar '/' sr.2).1.map jsToLower,
              coreParsedPath (splitAtChar '/' sr.2).2, none, none⟩

/-- Model of new URL on the fragment: split the fragment at the first hash,
parse the rest. -/
def parseUrlChars (s : List Char) : Option UrlObj :=
  (parseCore (splitAtChar '#' s).1).map fun u =>
    ⟨u.scheme, u.host, u.path, u.query, (splitAtChar '#' s).2⟩

/-- Removal of one trailing slash, the replace call with the anchored slash
regex used throughout the source. -/
def stripTrailingSlash (s : List Char) : List Char :=
  if s.getLast? = some '/' then s.dropLast else s

/-- URL canonicalization of the source (crawlWebsite lines 85 to 93 and
extractLinks lines 56 to 58): parse, drop the fragment, serialize, remove
one trailing slash. -/
def canonChars (s : List Char) : Option (List Char) :=
  (parseUrlChars s).map fun u =>
    stripTrailingSlash (hrefChars ⟨u.scheme, u.host, u.path, u.query, none⟩)

/-- String-level canonicalization. -/
def canon (s : String) : Option String :=
  (canonChars s.data).map fun l => ⟨l⟩

/-- Well-formedness of a parsed URL object in the modelled fragment: a
recognized scheme, a nonempty all-valid lowercase host, a path that is
either empty or slash-led with valid characters, and a valid query. -/
def wfCore (u : UrlObj) : Bool :=
  (u.scheme = "http".data || u.scheme = "https".data) &&
  (!u.host.isEmpty) && u.host.all hostCharOk &&
  (u.path.isEmpty || ((u.path.head? = some '/') && u.path.all pathCharOk)) &&
  (match u.query with | some q => q.all queryCharOk | none => true)

/-- Path normalization performed by a parse and reserialize round trip:
an empty path becomes the root path, everything else is unchanged. -/
def normPathObj (u : UrlObj) : UrlObj :=
  ⟨u.scheme, u.host, if u.path.isEmpty then ['/'] else u.path, u.query, none⟩

/-! ### Lemmas about the URL model -/

theorem not_mem_of_all_pos {l : List Char} {p : Char → Bool} {c : Char}
    (hl : l.all p = true) (hc : p c = false) : c ∉ l := by
  intro hmem
  have := List.all_eq_true.mp hl c hmem
  rw [hc] at this
  exact Bool.noConfusion this

theorem splitAtChar_of_not_mem {ch : Char} {s : List Char} (h : ch ∉ s) :
    splitAtChar ch s = (s, none) := by
  induction s with
  | nil => rfl
  | cons c cs ih =>
      have hne : c ≠ ch := fun hc => h (hc ▸ List.mem_cons_self c cs)
      have hcs : ch ∉ cs := fun hm => h (List.mem_cons_of_mem c hm)
      simp [splitAtChar, hne, ih hcs]

theorem splitAtChar_append {ch : Char} {a b : List Char} (h : ch ∉ a) :
    splitAtChar ch (a ++ ch :: b) = (a, some b) := by
  induction a with
  | nil => simp [splitAtChar]
  | cons c cs ih =>
      have hne : c ≠ ch := fun hc => h (hc ▸ List.mem_cons_self c cs)
      have hcs : ch ∉ cs := fun hm => h (List.mem_cons_of_mem c hm)
      simp [splitAtChar, hne, ih hcs]

theorem stripScheme_https (r : List Char) :
    stripScheme ("https".data ++ ':' :: '/' :: '/' :: r) = some ("https".data, r) := rfl

theorem stripScheme_http (r : List Char) :
    stripScheme ("http".data ++ ':' :: '/' :: '/' :: r) = some ("http".data, r) := rfl

theorem jsToLower_of_hostCharOk {c : Char} (h : hostCharOk c = true) :
    jsToLower c = c := by
  unfold jsToLower
  rw [if_neg]
  rintro ⟨h1, h2⟩
  have h65 : (65 : Nat) ≤ c.toNat := h1
  have h90 : c.toNat ≤ (90 : Nat) := h2
  unfold hostCharOk at h
  rcases Bool.or_eq_true_iff.mp h with hld | hp
  · rcases Bool.or_eq_true_iff.mp hld with hl | hd
    · rcases Bool.and_eq_true_iff.mp hl with ⟨ha, _⟩
      have h97 : (97 : Nat) ≤ c.toNat := of_decide_eq_true ha
      omega
    · unfold Char.isDigit at hd
      rcases Bool.and_eq_true_iff.mp hd with ⟨_, hb⟩
      have h57 : c.toNat ≤ (57 : Nat) := of_decide_eq_true hb
      omega
  · have hmem : c ∈ urlPunct := by simpa using hp
    fin_cases hmem <;> exact absurd (And.intro h65 h90) (by decide)

theorem map_jsToLower_of_all {l : List Char} (h : l.all hostCharOk = true) :
    l.map jsToLower = l := by
  have := List.map_congr_left
    (fun c hc => jsToLower_of_hostCharOk (List.all_eq_true.mp h c hc))
  exact this.trans (List.map_id l)

theorem wfCore_parts {u : UrlObj} (h : wfCore u = true) :
    (u.scheme = "http".data ∨ u.scheme = "https".data) ∧
    u.host ≠ [] ∧ u.host.all hostCharOk = true ∧
    (u.path = [] ∨ (u.path.head? = some '/' ∧ u.path.all pathCharOk = true)) ∧
    (∀ q, u.query = some q → q.all queryCharOk = true) := by
  unfold wfCore at h
  simp only [Bool.and_eq_true, Bool.or_eq_true, decide_eq_true_eq,
    Bool.not_eq_true', List.isEmpty_eq_false, List.isEmpty_iff] at h
  obtain ⟨⟨⟨⟨h1, h2⟩, h3⟩, h4⟩, h5⟩ := h
  refine ⟨h1, h2, h3, h4, ?_⟩
  intro q hq
  rw [hq] at h5
  simpa using h5

theorem wfCore_of_parts {u : UrlObj}
    (h1 : u.scheme = "http".data ∨ u.scheme = "https".data)
    (h2 : u.host ≠ []) (h3 : u.host.all hostCharOk = true)
    (h4 : u.path = [] ∨ (u.path.head? = some '/' ∧ u.path.all pathCharOk = true))
    (h5 : ∀ q, u.query = some q → q.all queryCharOk = true) :
    wfCore u = true := by
  unfold wfCore
  simp only [Bool.and_eq_true, Bool.or_eq_true, decide_eq_true_eq,
    Bool.not_eq_true', List.isEmpty_eq_false, List.isEmpty_iff]
  refine ⟨⟨⟨⟨h1, h2⟩, h3⟩, h4⟩, ?_⟩
  cases hq : u.query with
  | none => simp
  | some q => simpa using h5 q hq

theorem not_mem_hrefPre {u : UrlObj} (hwf : wfCore u = true) {ch : Char}
    (hsch1 : ch ∉ "http".data) (hsch2 : ch ∉ "https".data)
    (hns : ch ≠ ':') (hnsl : ch ≠ '/')
    (hhost : hostCharOk ch = false) (hpath : pathCharOk ch = false) :
    ch ∉ hrefPre u := by
  obtain ⟨hsch, hh, hha, hp, hq⟩ := wfCore_parts hwf
  unfold hrefPre
  intro hmem
  rcases List.mem_append.mp hmem with hs | hrest
  · rcases hsch with h1 | h1 <;> rw [h1] at hs
    · exact hsch1 hs
    · exact hsch2 hs
  · rcases List.mem_cons.mp hrest with h1 | hrest1
    · exact hns h1
    rcases List.mem_cons.mp hrest1 with h1 | hrest2
    · exact hnsl h1
    rcases List.mem_cons.mp hrest2 with h1 | hrest3
    · exact hnsl h1
    rcases List.mem_append.mp hrest3 with h1 | h1
    · exact not_mem_of_all_pos hha hhost h1
    · rcases hp with hp0 | ⟨_, hpall⟩
      · rw [hp0] at h1
        cases h1
      · exact not_mem_of_all_pos hpall hpath h1

theorem split_query_href {u : UrlObj} (hwf : wfCore u = true)
    (hfrag : u.frag = none) :
    splitAtChar '?' (hrefChars u) = (hrefPre u, u.query) := by
  have hqpre : '?' ∉ hrefPre u :=
    not_mem_hrefPre hwf (by decide) (by decide) (by decide) (by decide)
      (by decide) (by decide)
  unfold hrefChars
  rw [hfrag]
  cases hquery : u.query with
  | none =>
      show splitAtChar '?' (hrefPre u ++ [] ++ []) = _
      rw [List.append_nil, List.append_nil]
      exact splitAtChar_of_not_mem hqpre
  | some qq =>
      show splitAtChar '?' (hrefPre u ++ '?' :: qq ++ []) = _
      rw [List.append_nil]
      exact splitAtChar_append hqpre

theorem parse_after_scheme {u : UrlObj} (hwf : wfCore u = true) :
    stripScheme (hrefPre u) = some (u.scheme, u.host ++ u.path) := by
  obtain ⟨hsch, _, _, _, _⟩ := wfCore_parts hwf
  unfold hrefPre
  rcases hsch with h1 | h1 <;> rw [h1]
  · exact stripScheme_http _
  · exact stripScheme_https _

/-- Round trip of the model: parsing the serialization of a well-formed
fragment-free URL object recovers the object, up to the WHATWG
normalization of an empty path to the root path. -/
theorem parseCore_href {u : UrlObj} (hwf : wfCore u = true)
    (hfrag : u.frag = none) :
    parseCore (hrefChars u) = some (normPathObj u) := by
  obtain ⟨hsch, hh, hha, hpth, hq⟩ := wfCore_parts hwf
  have hslash : '/' ∉ u.host := not_mem_of_all_pos hha (by decide)
  have hhostE : u.host.isEmpty = false := by simpa [List.isEmpty_iff] using hh
  have hsplitHP : splitAtChar '/' (u.host ++ u.path) =
      (u.host, if u.path.isEmpty then none else some u.path.tail) := by
    rcases hpth with hp0 | ⟨hhead, _⟩
    · rw [hp0, List.append_nil, splitAtChar_of_not_mem hslash]
      simp [hp0]
    · rcases hu : u.path with _ | ⟨c, t⟩
      · rw [hu] at hhead
        cases hhead
      · rw [hu] at hhead
        have hc : c = '/' := by simpa using hhead
        subst hc
        rw [splitAtChar_append hslash]
        simp
  have hmap : u.host.map jsToLower = u.host := map_jsToLower_of_all hha
  have hpathok : (coreParsedPath (if u.path.isEmpty then none
      else some u.path.tail)).all pathCharOk = true := by
    rcases hpth with hp0 | ⟨hhead, hpall⟩
    · rw [hp0]
      decide
    · rcases hu : u.path with _ | ⟨c, t⟩
      · decide
      · rw [hu] at hhead hpall
        have hc : c = '/' := by simpa using hhead
        subst hc
        simpa [coreParsedPath] using hpall
  have hpatheq : coreParsedPath (if u.path.isEmpty then none
      else some u.path.tail) = (normPathObj u).path := by
    rcases hu : u.path with _ | ⟨c, t⟩
    · simp [coreParsedPath, normPathObj, hu]
    · rcases hpth with hp0 | ⟨hhead, _⟩
      · rw [hu] at hp0
        cases hp0
      · rw [hu] at hhead
        have hc : c = '/' := by simpa using hhead
        subst hc
        simp [coreParsedPath, normPathObj, hu]
  unfold parseCore
  rw [split_query_href hwf hfrag]
  simp only [parse_after_scheme hwf, hsplitHP, hmap, hhostE, hha, hpathok,
    Bool.not_true, Bool.false_eq_true, if_false]
  cases hquery : u.query with
  | none =>
      simp only [hpatheq]
      unfold normPathObj
      simp [hquery]
  | some qq =>
      simp only [hpatheq, hq qq hquery, if_true]
      unfold normPathObj
      simp [hquery]

theorem stripScheme_eq_some {x : List Char} {sr : List Char × List Char}
    (h : stripScheme x = some sr) :
    sr.1 = "https".data ∨ sr.1 = "http".data := by
  unfold stripScheme at h
  split_ifs at h <;> cases h <;> simp

/-- The parser only produces well-formed objects, with a nonempty path and
no fragment. -/
theorem parseCore_some_wf {core : List Char} {u : UrlObj}
    (h : parseCore core = some u) :
    wfCore u = true ∧ u.path ≠ [] ∧ u.frag = none := by
  unfold parseCore at h
  cases hs : stripScheme (splitAtChar '?' core).1 with
  | none => rw [hs] at h; cases h
  | some sr =>
      rw [hs] at h
      dsimp only at h
      by_cases h1 : (splitAtChar '/' sr.2).1.isEmpty = true
      · rw [if_pos h1] at h; cases h
      rw [if_neg h1] at h
      by_cases h2 : ((splitAtChar '/' sr.2).1.map jsToLower).all hostCharOk = true
      · rw [if_neg (by simp [h2])] at h
        by_cases h3 : (coreParsedPath (splitAtChar '/' sr.2).2).all pathCharOk = true
        · rw [if_neg (by simp [h3])] at h
          have hhostne : (splitAtChar '/' sr.2).1.map jsToLower ≠ [] := by
            intro hnil
            rw [List.map_eq_nil_iff] at hnil
            rw [hnil] at h1
            exact h1 rfl
          have hpathshape : (coreParsedPath (splitAtChar '/' sr.2).2).head? = some '/' := by
            cases (splitAtChar '/' sr.2).2 <;> rfl
          have hpathne : coreParsedPath (splitAtChar '/' sr.2).2 ≠ [] := by
            cases (splitAtChar '/' sr.2).2 <;> simp [coreParsedPath]
          cases hq2 : (splitAtChar '?' core).2 with
          | none =>
              rw [hq2] at h
              dsimp only at h
              cases h
              refine ⟨wfCore_of_parts ?_ ?_ ?_ ?_ ?_, hpathne, rfl⟩
              · exact (stripScheme_eq_some hs).elim (fun a => Or.inr a)
                  (fun a => Or.inl a)
              · exact hhostne
              · exact h2
              · exact Or.inr ⟨hpathshape, h3⟩
              · intro q hq
                cases hq
          | some qq =>
              rw [hq2] at h
              dsimp only at h
              by_cases h4 : qq.all queryCharOk = true
              · rw [if_pos h4] at h
                cases h
                refine ⟨wfCore_of_parts ?_ ?_ ?_ ?_ ?_, hpathne, rfl⟩
                · exact (stripScheme_eq_some hs).elim (fun a => Or.inr a)
                    (fun a => Or.inl a)
                · exact hhostne
                · exact h2
                · exact Or.inr ⟨hpathshape, h3⟩
                · intro q hq
                  cases hq
                  exact h4
              · rw [if_neg h4] at h
                cases h
        · rw [if_pos (by simp [h3])] at h
          cases h
      · rw [if_pos (by simp [h2])] at h
        cases h

theorem parseCore_frag_none {core : List Char} {u : UrlObj}
    (h : parseCore core = some u) : u.frag = none :=
  (parseCore_some_wf h).2.2

/-- Canonicalization in terms of the fragment-free parser: the fragment is
split off first and then discarded, so only parseCore matters. -/
theorem canonChars_eq_core (s : List Char) :
    canonChars s = (parseCore (splitAtChar '#' s).1).map
      fun u => stripTrailingSlash (hrefChars u) := by
  unfold canonChars parseUrlChars
  cases hp : parseCore (splitAtChar '#' s).1 with
  | none => rfl
  | some u =>
      have hf : u.frag = none := parseCore_frag_none hp
      rcases u with ⟨sch, host, path, query, frag⟩
      cases hf
      rfl

theorem hash_not_mem_href {u : UrlObj} (hwf : wfCore u = true)
    (hfrag : u.frag = none) : '#' ∉ hrefChars u := by
  obtain ⟨_, _, _, _, hq⟩ := wfCore_parts hwf
  have hpre : '#' ∉ hrefPre u :=
    not_mem_hrefPre hwf (by decide) (by decide) (by decide) (by decide)
      (by decide) (by decide)
  unfold hrefChars
  rw [hfrag]
  intro hmem
  rcases List.mem_append.mp hmem with hmem1 | hmem1
  · rcases List.mem_append.mp hmem1 with hmem2 | hmem2
    · exact hpre hmem2
    · cases hquery : u.query with
      | none => rw [hquery] at hmem2; cases hmem2
      | some qq =>
          rw [hquery] at hmem2
          rcases List.mem_cons.mp hmem2 with h1 | h1
          · cases h1
          · exact not_mem_of_all_pos (hq qq hquery) (by decide) h1
  · cases hmem1

/-- Canonicalizing the serialization of a well-formed fragment-free object
computes to the strip of the serialization of its path normalization. -/
theorem canonChars_href {u : UrlObj} (hwf : wfCore u = true)
    (hfrag : u.frag = none) :
    canonChars (hrefChars u) =
      some (stripTrailingSlash (hrefChars (normPathObj u))) := by
  rw [canonChars_eq_core]
  rw [splitAtChar_of_not_mem (hash_not_mem_href hwf hfrag)]
  show (parseCore (hrefChars u)).map _ = _
  rw [parseCore_href hwf hfrag]
  rfl

theorem normPathObj_eq {u : UrlObj} (hp : u.path ≠ []) (hf : u.frag = none) :
    normPathObj u = u := by
  rcases u with ⟨sch, host, path, query, frag⟩
  cases hf
  unfold normPathObj
  simp only [UrlObj.mk.injEq, true_and, and_true]
  rw [if_neg (by simpa [List.isEmpty_iff] using hp)]

theorem getLast?_pre_append {pre l : List Char} (hl : l ≠ []) :
    (pre ++ ':' :: '/' :: '/' :: l).getLast? = l.getLast? := by
  rw [List.getLast?_append_of_ne_nil _ (List.cons_ne_nil _ _)]
  rw [show ':' :: '/' :: '/' :: l = [':', '/', '/'] ++ l from rfl]
  rw [List.getLast?_append_of_ne_nil _ hl]

/-- Core of the amended idempotence claim: a canonical form that does not
itself end in a slash is a fixed point of canonicalization. -/
theorem canonChars_fixed {s v : List Char} (h : canonChars s = some v)
    (hv : v.getLast? ≠ some '/') : canonChars v = some v := by
  rw [canonChars_eq_core] at h
  cases hp : parseCore (splitAtChar '#' s).1 with
  | none => rw [hp] at h; cases h
  | some u =>
      rw [hp] at h
      obtain ⟨hwf, hpne, hfrag⟩ := parseCore_some_wf hp
      obtain ⟨hsch, hh, hha, hpth, hq⟩ := wfCore_parts hwf
      have hv_eq : stripTrailingSlash (hrefChars u) = v := by simpa using h
      have hpth2 := hpth.resolve_left hpne
      by_cases hlast : (hrefChars u).getLast? = some '/'
      · have hveq : v = (hrefChars u).dropLast := by
          rw [← hv_eq]
          unfold stripTrailingSlash
          rw [if_pos hlast]
        rcases u with ⟨sch, host, path, query, frag⟩
        simp only at hsch hh hha hpth hq hpne hpth2 hlast hveq hv_eq
        cases hfrag
        cases hquery : query with
        | some q =>
            have hqall := hq q hquery
            cases hquery
            have hqne : q ≠ [] := by
              intro h0
              cases h0
              have hx : (hrefChars ⟨sch, host, path, some [], none⟩).getLast? =
                  some '?' := by
                show ((hrefPre ⟨sch, host, path, some [], none⟩ ++
                  '?' :: []) ++ []).getLast? = _
                rw [List.append_nil]
                exact List.getLast?_concat _
              rw [hx] at hlast
              simp at hlast
            have hwf2 : wfCore ⟨sch, host, path, some q.dropLast, none⟩ = true := by
              refine wfCore_of_parts hsch hh hha hpth ?_
              intro q2 hq2
              cases hq2
              exact List.all_eq_true.mpr fun x hx =>
                List.all_eq_true.mp hqall x (List.mem_of_mem_dropLast hx)
            have hdrop : (hrefChars ⟨sch, host, path, some q, none⟩).dropLast =
                hrefChars ⟨sch, host, path, some q.dropLast, none⟩ := by
              show ((hrefPre ⟨sch, host, path, some q, none⟩ ++ '?' :: q) ++
                  []).dropLast =
                (hrefPre ⟨sch, host, path, some q.dropLast, none⟩ ++
                  '?' :: q.dropLast) ++ []
              rw [List.append_nil, List.append_nil]
              rw [List.dropLast_append_of_ne_nil _ (List.cons_ne_nil _ _)]
              rw [List.dropLast_cons_of_ne_nil hqne]
              rfl
            rw [hveq, hdrop]
            rw [canonChars_href hwf2 rfl]
            rw [normPathObj_eq hpne rfl]
            rw [hveq, hdrop] at hv
            unfold stripTrailingSlash
            rw [if_neg hv]
        | none =>
            cases hquery
            have hhrefeq : hrefChars ⟨sch, host, path, none, none⟩ =
                sch ++ ':' :: '/' :: '/' :: (host ++ path) := by
              show (hrefPre ⟨sch, host, path, none, none⟩ ++ []) ++ [] = _
              rw [List.append_nil, List.append_nil]
              rfl
            by_cases hpd : path.dropLast = []
            · have hplast : path.getLast? = some '/' := by
                rw [hhrefeq] at hlast
                rw [getLast?_pre_append (by simp [hpne])] at hlast
                rw [List.getLast?_append_of_ne_nil _ hpne] at hlast
                exact hlast
              have hpath1 : path = ['/'] := by
                have hx := List.dropLast_append_getLast hpne
                rw [hpd, List.nil_append] at hx
                rw [List.getLast?_eq_getLast path hpne] at hplast
                have hg : path.getLast hpne = '/' := by simpa using hplast
                rw [hg] at hx
                exact hx.symm
              cases hpath1
              have hwf2 : wfCore ⟨sch, host, [], none, none⟩ = true := by
                refine wfCore_of_parts hsch hh hha (Or.inl rfl) ?_
                intro q2 hq2
                cases hq2
              have hdrop : (hrefChars ⟨sch, host, ['/'], none, none⟩).dropLast =
                  hrefChars ⟨sch, host, [], none, none⟩ := by
                rw [hhrefeq]
                show _ = (hrefPre ⟨sch, host, [], none, none⟩ ++ []) ++ []
                rw [List.append_nil, List.append_nil]
                show (sch ++ ':' :: '/' :: '/' :: (host ++ ['/'])).dropLast =
                  sch ++ ':' :: '/' :: '/' :: (host ++ [])
                rw [List.append_nil]
                rw [List.dropLast_append_of_ne_nil _ (List.cons_ne_nil _ _)]
                rw [show (':' :: '/' :: '/' :: (host ++ ['/'])).dropLast =
                    ':' :: '/' :: '/' :: (host ++ ['/']).dropLast by
                  rw [List.dropLast_cons_of_ne_nil (by simp),
                    List.dropLast_cons_of_ne_nil (by simp),
                    List.dropLast_cons_of_ne_nil (by simp)]]
                rw [List.dropLast_concat]
              rw [hveq, hdrop]
              rw [canonChars_href hwf2 rfl]
              have hnorm : normPathObj ⟨sch, host, [], none, none⟩ =
                  ⟨sch, host, ['/'], none, none⟩ := by
                unfold normPathObj
                simp
              rw [hnorm]
              unfold stripTrailingSlash
              rw [if_pos hlast, hdrop]
            · obtain ⟨t, hpatht⟩ : ∃ t, path = '/' :: t := by
                rcases hpx : path with _ | ⟨c, t⟩
                · exact absurd hpx hpne
                · rw [hpx] at hpth2
                  have hc : c = '/' := by simpa using hpth2.1
                  cases hc
                  exact ⟨t, rfl⟩
              have htne : t ≠ [] := by
                intro h0
                rw [hpatht, h0] at hpd
                exact absurd rfl hpd
              have hwf2 : wfCore ⟨sch, host, path.dropLast, none, none⟩ = true := by
                refine wfCore_of_parts hsch hh hha (Or.inr ⟨?_, ?_⟩) ?_
                · rw [hpatht]
                  rw [List.dropLast_cons_of_ne_nil htne]
                  rfl
                · exact List.all_eq_true.mpr fun x hx =>
                    List.all_eq_true.mp hpth2.2 x (List.mem_of_mem_dropLast hx)
                · intro q2 hq2
                  cases hq2
              have hdrop : (hrefChars ⟨sch, host, path, none, none⟩).dropLast =
                  hrefChars ⟨sch, host, path.dropLast, none, none⟩ := by
                rw [hhrefeq]
                show _ = (hrefPre ⟨sch, host, path.dropLast, none, none⟩ ++ []) ++ []
                rw [List.append_nil, List.append_nil]
                show (sch ++ ':' :: '/' :: '/' :: (host ++ path)).dropLast =
                  sch ++ ':' :: '/' :: '/' :: (host ++ path.dropLast)
                rw [List.dropLast_append_of_ne_nil _ (List.cons_ne_nil _ _)]
                rw [show (':' :: '/' :: '/' :: (host ++ path)).dropLast =
                    ':' :: '/' :: '/' :: (host ++ path).dropLast by
                  rw [List.dropLast_cons_of_ne_nil (by simp [hpne]),
                    List.dropLast_cons_of_ne_nil (by simp [hpne]),
                    List.dropLast_cons_of_ne_nil (by simp [hpne])]]
                rw [List.dropLast_append_of_ne_nil _ hpne]
              rw [hveq, hdrop]
              rw [canonChars_href hwf2 rfl]
              rw [normPathObj_eq hpd rfl]
              rw [hveq, hdrop] at hv
              unfold stripTrailingSlash
              rw [if_neg hv]
      · have hveq : v = hrefChars u := by
          rw [← hv_eq]
          unfold stripTrailingSlash
          rw [if_neg hlast]
        rw [hveq]
        rw [canonChars_href hwf hfrag]
        rw [normPathObj_eq hpne hfrag]
        unfold stripTrailingSlash
        rw [if_neg hlast]

/-! ### Claim C7: canonicalization -/

/-- Counterexample to claim C7 as stated: canonicalization is not
idempotent on every URL the parser accepts.  A URL whose path ends in two
slashes is accepted, its canonicalization strips only one slash (the
replace regex is anchored and removes a single trailing slash), and a
second canonicalization strips another, so canon of canon differs from
canon. -/
theorem claim_C7_counterexample :
    canon "https://example.com/a//" = some "https://example.com/a/" ∧
    canon "https://example.com/a/" = some "https://example.com/a" ∧
    ("https://example.com/a/" : String) ≠ "https://example.com/a" :=
  ⟨by decide, by decide, by decide⟩

/-- Claim C7 (amended): canonicalization is idempotent on every accepted
URL whose canonical form does not end in a slash; appending a single
trailing slash to a slash-free path does not change the canonical form,
and a fragment never changes the canonical form.  For serializations
ending in two or more slashes each canonicalization pass removes exactly
one slash, so idempotence fails there. -/
theorem claim_C7_canon_idempotent :
    (∀ s v : String, canon s = some v → v.data.getLast? ≠ some '/' →
        canon v = some v) ∧
    (∀ u : UrlObj, wfCore u = true → u.frag = none → u.query = none →
        u.path ≠ [] → u.path.getLast? ≠ some '/' →
        canonChars (hrefChars ⟨u.scheme, u.host, u.path ++ ['/'], none, none⟩) =
          canonChars (hrefChars u)) ∧
    (∀ u : UrlObj, wfCore u = true →
        (∀ f, u.frag = some f → f.all queryCharOk = true) →
        canonChars (hrefChars u) =
          canonChars (hrefChars ⟨u.scheme, u.host, u.path, u.query, none⟩)) := by
  refine ⟨?_, ?_, ?_⟩
  · intro s v h hv
    unfold canon at h ⊢
    cases hc : canonChars s.data with
    | none => rw [hc] at h; cases h
    | some l =>
        rw [hc] at h
        have h2 : (⟨l⟩ : String) = v := by simpa using h
        have hl : l = v.data := by rw [← h2]
        cases hl
        rw [canonChars_fixed hc hv]
        rfl
  · intro u hwf hfrag hquery hpne hplast
    rcases u with ⟨sch, host, path, query, frag⟩
    simp only at hfrag hquery hpne hplast
    cases hfrag
    cases hquery
    obtain ⟨hsch, hh, hha, hpth, _⟩ := wfCore_parts hwf
    simp only at hsch hh hha hpth
    have hpth2 := hpth.resolve_left hpne
    have hwfP : wfCore ⟨sch, host, path ++ ['/'], none, none⟩ = true := by
      refine wfCore_of_parts hsch hh hha (Or.inr ⟨?_, ?_⟩) ?_
      · obtain ⟨t, rfl⟩ : ∃ t, path = '/' :: t := by
          rcases hpx : path with _ | ⟨c, t⟩
          · exact absurd hpx hpne
          · rw [hpx] at hpth2
            have hc : c = '/' := by simpa using hpth2.1
            cases hc
            exact ⟨t, rfl⟩
        rfl
      · rw [List.all_append, hpth2.2]
        decide
      · intro q2 hq2
        cases hq2
    rw [canonChars_href hwfP rfl, canonChars_href hwf rfl]
    rw [normPathObj_eq (by simp) rfl, normPathObj_eq hpne rfl]
    have hdrop : (hrefChars ⟨sch, host, path ++ ['/'], none, none⟩).dropLast =
        hrefChars ⟨sch, host, path, none, none⟩ := by
      show ((hrefPre ⟨sch, host, path ++ ['/'], none, none⟩ ++ []) ++
          []).dropLast = (hrefPre ⟨sch, host, path, none, none⟩ ++ []) ++ []
      rw [List.append_nil, List.append_nil, List.append_nil, List.append_nil]
      show (sch ++ ':' :: '/' :: '/' :: (host ++ (path ++ ['/']))).dropLast =
        sch ++ ':' :: '/' :: '/' :: (host ++ path)
      rw [List.dropLast_append_of_ne_nil _ (List.cons_ne_nil _ _)]
      rw [show (':' :: '/' :: '/' :: (host ++ (path ++ ['/']))).dropLast =
          ':' :: '/' :: '/' :: (host ++ (path ++ ['/'])).dropLast by
        rw [List.dropLast_cons_of_ne_nil (by simp),
          List.dropLast_cons_of_ne_nil (by simp),
          List.dropLast_cons_of_ne_nil (by simp)]]
      rw [← List.append_assoc, List.dropLast_concat]
    have hlastP : (hrefChars ⟨sch, host, path ++ ['/'], none, none⟩).getLast? =
        some '/' := by
      show ((hrefPre ⟨sch, host, path ++ ['/'], none, none⟩ ++ []) ++
          []).getLast? = _
      rw [List.append_nil, List.append_nil]
      show (sch ++ ':' :: '/' :: '/' :: (host ++ (path ++ ['/']))).getLast? = _
      rw [getLast?_pre_append (by simp)]
      rw [List.getLast?_append_of_ne_nil _ (by simp)]
      exact List.getLast?_concat _
    have hlastU : (hrefChars ⟨sch, host, path, none, none⟩).getLast? ≠
        some '/' := by
      show ((hrefPre ⟨sch, host, path, none, none⟩ ++ []) ++ []).getLast? ≠ _
      rw [List.append_nil, List.append_nil]
      show (sch ++ ':' :: '/' :: '/' :: (host ++ path)).getLast? ≠ _
      rw [getLast?_pre_append (by simp [hpne])]
      rw [List.getLast?_append_of_ne_nil _ hpne]
      exact hplast
    unfold stripTrailingSlash
    rw [if_pos hlastP, if_neg hlastU, hdrop]
  · intro u hwf hfq
    rcases u with ⟨sch, host, path, query, frag⟩
    cases frag with
    | none => rfl
    | some f =>
        have hwf2 : wfCore ⟨sch, host, path, query, none⟩ = true := hwf
        have hnm : '#' ∉ hrefPre ⟨sch, host, path, query, none⟩ ++
            queryPart query := by
          have hx := hash_not_mem_href hwf2 rfl
          unfold hrefChars at hx
          rw [show fragPart none = ([] : List Char) from rfl,
            List.append_nil] at hx
          exact hx
        rw [canonChars_eq_core, canonChars_eq_core]
        have h1 : splitAtChar '#' (hrefChars ⟨sch, host, path, query, some f⟩) =
            (hrefPre ⟨sch, host, path, query, none⟩ ++ queryPart query,
              some f) := by
          show splitAtChar '#' ((hrefPre ⟨sch, host, path, query, none⟩ ++
            queryPart query) ++ '#' :: f) = _
          exact splitAtChar_append hnm
        have h2 : splitAtChar '#' (hrefChars ⟨sch, host, path, query, none⟩) =
            (hrefPre ⟨sch, host, path, query, none⟩ ++ queryPart query,
              none) := by
          show splitAtChar '#' ((hrefPre ⟨sch, host, path, query, none⟩ ++
            queryPart query) ++ []) = _
          rw [List.append_nil]
          exact splitAtChar_of_not_mem hnm
        rw [h1, h2]

/-- Witness for the amended claim C7: idempotence at a concrete canonical
form, trailing-slash indifference and fragment indifference at concrete
objects. -/
theorem claim_C7_witness :
    canon "https://example.com/a" = some "https://example.com/a" ∧
    canonChars (hrefChars ⟨"https".data, "example.com".data,
        ['/', 'a'] ++ ['/'], none, none⟩) =
      canonChars (hrefChars ⟨"https".data, "example.com".data,
        ['/', 'a'], none, none⟩) ∧
    canonChars (hrefChars ⟨"https".data, "example.com".data,
        ['/', 'a'], none, some "sec".data⟩) =
      canonChars (hrefChars ⟨"https".data, "example.com".data,
        ['/', 'a'], none, none⟩) :=
  ⟨claim_C7_canon_idempotent.1 "https://example.com/a/" "https://example.com/a"
      (by decide) (by decide),
    claim_C7_canon_idempotent.2.1
      ⟨"https".data, "example.com".data, ['/', 'a'], none, none⟩
      (by decide) rfl rfl (by decide) (by decide),
    claim_C7_canon_idempotent.2.2
      ⟨"https".data, "example.com".data, ['/', 'a'], none, some "sec".data⟩
      (by decide) (fun f hf => by cases hf; decide)⟩

/-! ### Network fetchers and the crawler -/

/-- Outcome of one axios.get call to the external network collaborator:
either a thrown transport error (network failure, DNS failure, timeout) or
a response with an HTTP status and a body.  The body is the string axios
delivers; an empty string stands for an empty or falsy body, and the
non-string bodies that analyze/route.ts passes through JSON.stringify are
represented by their stringified text. -/
inductive AxiosOutcome where
  | netErr : AxiosOutcome
  | resp (status : Nat) (data : String) : AxiosOutcome
deriving DecidableEq, Repr

/-- fetchPage of scan/route.ts: axios.get with the default validateStatus,
which throws outside 2xx; every thrown error is caught and becomes null. -/
def fetchPage (net : String → AxiosOutcome) (url : String) : Option String :=
  match net url with
  | .netErr => none
  | .resp status data => if 200 ≤ status ∧ status < 300 then some data else none

/-- Quote character test for the href attribute regex character class. -/
def isQuote (c : Char) : Bool := c = '"' || c = Char.ofNat 39

/-- Generalized position list for a matcher that also yields a captured
value. -/
def allMatchesV {α : Type} (matchAt : List Char → Nat → Option (Nat × α))
    (s : List Char) : List (Nat × Nat × α) :=
  (List.range s.length).filterMap fun i =>
    (matchAt s i).map fun r => (i, r.1, r.2)

/-- Greedy global-scan selection with captured values. -/
def applyGreedyV {α : Type} : Nat → List (Nat × Nat × α) → List (Nat × Nat × α)
  | _, [] => []
  | p, (i, L, v) :: rest =>
      if p ≤ i then (i, L, v) :: applyGreedyV (i + L) rest
      else applyGreedyV p rest

/-- Matches with captures found by a JS global regex exec loop. -/
def scanMatchesV {α : Type} (matchAt : List Char → Nat → Option (Nat × α))
    (s : List Char) : List (Nat × Nat × α) :=
  applyGreedyV 0 (allMatchesV matchAt s)

/-- Matcher for the href attribute regex of extractLinks: the literal href
and equals sign (case-insensitive), an opening quote of either kind, one or
more characters that are not quotes of either kind (greedy, captured), and
a closing quote of either kind. -/
def hrefMatchAt (s : List Char) (i : Nat) : Option (Nat × List Char) :=
  if matchCIAt "href=".data s i then
    if isQuote (s.getD (i + 5) ' ') then
      let cap := (s.drop (i + 6)).takeWhile fun c => !(isQuote c)
      if 0 < cap.length && isQuote (s.getD (i + 6 + cap.length) ' ') then
        some (cap.length + 7, cap)
      else none
    else none
  else none

/-- Suffix test on character lists, the endsWith call of the same-domain
check. -/
def listEndsWith (l suf : List Char) : Bool :=
  decide (suf.length ≤ l.length) && decide (l.drop (l.length - suf.length) = suf)

/-- Scheme detector for a reference string: an ASCII letter followed by
scheme characters up to a colon, as the WHATWG parser recognizes an
absolute reference. -/
def schemeEnd : List Char → Bool
  | [] => false
  | c :: cs =>
      if c = ':' then true
      else if c.isAlpha || c.isDigit || c = '+' || c = '-' || c = '.' then
        schemeEnd cs
      else false

/-- Absolute-reference test used by the relative resolver model. -/
def hasSchemePrefix : List Char → Bool
  | [] => false
  | c :: cs => c.isAlpha && schemeEnd cs

/-- Split of a relative reference at the start of its query or fragment. -/
def splitRelTail : List Char → List Char × List Char
  | [] => ([], [])
  | c :: cs =>
      if c = '?' || c = '#' then ([], c :: cs)
      else
        let r := splitRelTail cs
        (c :: r.1, r.2)

/-- Base path truncated to its last slash, the merge step of relative
resolution. -/
def basePathToLastSlash (p : List Char) : List Char :=
  (p.reverse.dropWhile fun c => !(c = '/')).reverse

/-- Dot-segment removal worker over the segment list, WHATWG path state
machine on the modelled fragment. -/
def removeDotSegmentsAux : List (List Char) → List (List Char) → List (List Char)
  | acc, [] => acc.reverse
  | acc, seg :: rest =>
      if seg = ['.'] then
        if rest.isEmpty then (([] : List Char) :: acc).reverse
        else removeDotSegmentsAux acc rest
      else if seg = ['.', '.'] then
        if rest.isEmpty then (([] : List Char) :: acc.tail).reverse
        else removeDotSegmentsAux acc.tail rest
      else removeDotSegmentsAux (seg :: acc) rest

/-- Dot-segment removal on a slash-led path. -/
def removeDotSegments (p : List Char) : List Char :=
  '/' :: List.intercalate ['/'] (removeDotSegmentsAux [] ((p.drop 1).splitOn '/'))

/-- Modelled WHATWG relative resolution, the new URL(link, baseUrl) call of
extractLinks for links that do not start with http or a slash: an absolute
reference replaces the base entirely (non-http schemes are outside the
modelled fragment and are dropped here; in the source they parse and then
necessarily fail the same-host check, so extractLinks treats them
identically); a query-only or fragment-only reference keeps the base path;
a relative path is merged onto the base path up to its last slash with dot
segments removed. -/
def resolveRel (ref : List Char) (b : UrlObj) : Option (List Char) :=
  if hasSchemePrefix ref then
    if (parseUrlChars ref).isSome then some ref else none
  else
    match ref with
    | '?' :: _ => some (hrefChars ⟨b.scheme, b.host, b.path, none, none⟩ ++ ref)
    | '#' :: _ => some (hrefChars ⟨b.scheme, b.host, b.path, none, none⟩ ++ ref)
    | _ =>
        let rt := splitRelTail ref
        some (b.scheme ++ ':' :: '/' :: '/' ::
          (b.host ++ removeDotSegments (basePathToLastSlash b.path ++ rt.1)) ++
          rt.2)

/-- One candidate link of the extractLinks loop: scheme filtering, absolute
resolution, parse, same-domain check, canonicalization, deduplication
(lines 36 to 68 of scan/route.ts). -/
def linkStep (b : UrlObj) (links : List String) (link : List Char) :
    List String :=
  if List.isPrefixOf "javascript:".data link || List.isPrefixOf "mailto:".data link ||
      List.isPrefixOf "tel:".data link || List.isPrefixOf "#".data link then links
  else
    let resolved : Option (List Char) :=
      if List.isPrefixOf "/".data link then
        some (b.scheme ++ ':' :: '/' :: '/' :: (b.host ++ link))
      else if !(List.isPrefixOf "http".data link) then resolveRel link b
      else some link
    match resolved with
    | none => links
    | some l =>
        match parseUrlChars l with
        | none => links
        | some lu =>
            if lu.host = b.host || listEndsWith lu.host ('.' :: b.host) then
              let normalized : String :=
                ⟨stripTrailingSlash
                  (hrefChars ⟨lu.scheme, lu.host, lu.path, lu.query, none⟩)⟩
              if links.contains normalized then links
              else links ++ [normalized]
            else links

/-- extractLinks of scan/route.ts.  The depth arguments are accepted and
ignored exactly as in the source.  A base URL the parser rejects would make
the source throw inside the crawl; the crawler only ever passes
canonicalized URLs, which parse, so that branch is unreachable and the
model returns the empty list there. -/
def extractLinks (html : List Char) (baseUrl : String)
    (currentDepth maxDepth : Nat) : List String :=
  match parseUrlChars baseUrl.data with
  | none => []
  | some b => (scanMatchesV hrefMatchAt html).foldl
      (fun links m => linkStep b links m.2.2) []

/-- URL and depth record assembled by the crawler. -/
structure URLData where
  url : String
  depth : Nat
deriving DecidableEq, Repr

/-- BFS loop of crawlWebsite (scan/route.ts lines 82 to 113): dequeue,
canonicalize (a parse failure skips the entry), skip visited or too-deep
entries, record the node, and when depth and count permit fetch the page
and enqueue its unvisited links one level deeper.  The visited set is a JS
Set used only for membership. -/
def crawlLoop (net : String → AxiosOutcome) (maxUrls maxDepth : Nat) :
    List (String × Nat) → List String → List URLData → List URLData
  | [], _, urls => urls
  | (url, depth) :: rest, visited, urls =>
      if h : maxUrls ≤ urls.length then urls
      else
        match canon url with
        | none => crawlLoop net maxUrls maxDepth rest visited urls
        | some nu =>
            if visited.contains nu || depth > maxDepth then
              crawlLoop net maxUrls maxDepth rest visited urls
            else
              let urls2 := urls ++ [⟨nu, depth⟩]
              let visited2 := visited ++ [nu]
              let links :=
                if depth < maxDepth && urls2.length < maxUrls then
                  match fetchPage net nu with
                  | some htmlText =>
                      if htmlText ≠ "" then
                        (extractLinks htmlText.data nu depth maxDepth).filter
                          fun l => !(visited2.contains l)
                      else []
                  | none => []
                else []
              crawlLoop net maxUrls maxDepth
                (rest ++ links.map fun l => (l, depth + 1)) visited2 urls2
termination_by queue visited urls => (maxUrls - urls.length, queue.length)
decreasing_by
  all_goals first
    | (apply Prod.Lex.right
       simp)
    | (apply Prod.Lex.left
       simp only [List.length_append, List.length_cons, List.length_nil]
       omega)

/-- crawlWebsite of scan/route.ts: breadth-first crawl from the seed at
depth zero with empty visited set and result list. -/
def crawlWebsite (net : String → AxiosOutcome) (startUrl : String)
    (maxUrls maxDepth : Nat) : List URLData :=
  crawlLoop net maxUrls maxDepth [(startUrl, 0)] [] []

/-- Request body of the scan endpoint as the client sends it
(WebsiteScanner.tsx includes excludeUrls); absent maxUrls and maxDepth
default to 200 and 5 in the handler. -/
structure ScanBody where
  url : Option String
  maxUrls : Option Nat
  maxDepth : Option Nat
  keywords : List String
  workStreamAreas : List String
  excludeUrls : List String

/-- Response of the scan endpoint. -/
inductive ScanResponse where
  | ok (urls : List URLData) (count : Nat)
      (keywords workStreamAreas : List String)
  | err (status : Nat) (msg : String)
deriving DecidableEq, Repr

/-- POST handler of scan/route.ts.  Note that the handler destructures only
url, maxUrls, maxDepth, keywords and workStreamAreas from the body: the
excludeUrls field the client sends is never read. -/
def scanPOST (net : String → AxiosOutcome) (body : ScanBody) : ScanResponse :=
  match body.url with
  | none => .err 400 "URL is required"
  | some u =>
      if u = "" then .err 400 "URL is required"
      else
        let validatedUrl :=
          if List.isPrefixOf "http".data u.data then u else "https://" ++ u
        if (parseUrlChars validatedUrl.data).isNone then
          .err 400 "Invalid URL format"
        else if body.maxUrls.getD 200 > 300 then
          .err 400 "Maximum 300 URLs allowed"
        else if body.maxDepth.getD 5 > 5 then
          .err 400 "Maximum depth is 5 layers"
        else
          .ok (crawlWebsite net validatedUrl (body.maxUrls.getD 200)
              (body.maxDepth.getD 5))
            (crawlWebsite net validatedUrl (body.maxUrls.getD 200)
              (body.maxDepth.getD 5)).length
            body.keywords body.workStreamAreas

/-! ### Lemmas about the crawler -/

theorem crawlLoop_nil (net : String → AxiosOutcome) (maxUrls maxDepth : Nat)
    (visited : List String) (urls : List URLData) :
    crawlLoop net maxUrls maxDepth [] visited urls = urls := by
  unfold crawlLoop
  rfl

/-- Records already in the accumulator survive to the final result. -/
theorem mem_crawlLoop_acc (net : String → AxiosOutcome) (maxUrls maxDepth : Nat)
    (r : URLData) :
    ∀ (queue : List (String × Nat)) (visited : List String)
      (urls : List URLData), r ∈ urls →
      r ∈ crawlLoop net maxUrls maxDepth queue visited urls := by
  refine crawlLoop.induct net maxUrls maxDepth
    (fun queue visited urls => r ∈ urls →
      r ∈ crawlLoop net maxUrls maxDepth queue visited urls)
    ?_ ?_ ?_ ?_ ?_
  · intro visited urls hr
    rw [crawlLoop_nil]
    exact hr
  · intro url depth rest visited urls h hr
    unfold crawlLoop
    rw [dif_pos h]
    exact hr
  · intro url depth rest visited urls h hc ih hr
    unfold crawlLoop
    rw [dif_neg h, hc]
    exact ih hr
  · intro url depth rest visited urls h nu hc hvis ih hr
    unfold crawlLoop
    rw [dif_neg h, hc]
    dsimp only
    rw [if_pos hvis]
    exact ih hr
  · intro url depth rest visited urls h nu hc hvis urls2 visited2 links ih hr
    unfold crawlLoop
    rw [dif_neg h, hc]
    dsimp only
    rw [if_neg hvis]
    exact ih (List.mem_append_left _ hr)

/-- Invariant of the crawl loop: the result respects both caps whenever the
accumulator does. -/
theorem crawlLoop_bounds (net : String → AxiosOutcome) (maxUrls maxDepth : Nat) :
    ∀ (queue : List (String × Nat)) (visited : List String)
      (urls : List URLData), urls.length ≤ maxUrls →
      (∀ x ∈ urls, x.depth ≤ maxDepth) →
      (crawlLoop net maxUrls maxDepth queue visited urls).length ≤ maxUrls ∧
      ∀ x ∈ crawlLoop net maxUrls maxDepth queue visited urls,
        x.depth ≤ maxDepth := by
  refine crawlLoop.induct net maxUrls maxDepth
    (fun queue visited urls => urls.length ≤ maxUrls →
      (∀ x ∈ urls, x.depth ≤ maxDepth) →
      (crawlLoop net maxUrls maxDepth queue visited urls).length ≤ maxUrls ∧
      ∀ x ∈ crawlLoop net maxUrls maxDepth queue visited urls,
        x.depth ≤ maxDepth)
    ?_ ?_ ?_ ?_ ?_
  · intro visited urls h1 h2
    rw [crawlLoop_nil]
    exact ⟨h1, h2⟩
  · intro url depth rest visited urls h h1 h2
    unfold crawlLoop
    rw [dif_pos h]
    exact ⟨h1, h2⟩
  · intro url depth rest visited urls h hc ih h1 h2
    unfold crawlLoop
    rw [dif_neg h, hc]
    exact ih h1 h2
  · intro url depth rest visited urls h nu hc hvis ih h1 h2
    unfold crawlLoop
    rw [dif_neg h, hc]
    dsimp only
    rw [if_pos hvis]
    exact ih h1 h2
  · intro url depth rest visited urls h nu hc hvis urls2 visited2 links ih h1 h2
    unfold crawlLoop
    rw [dif_neg h, hc]
    dsimp only
    rw [if_neg hvis]
    have hdep : depth ≤ maxDepth := by
      by_contra hgt
      apply hvis
      rw [Bool.or_eq_true_iff]
      exact Or.inr (decide_eq_true (by omega))
    refine ih ?_ ?_
    · show (urls ++ [(⟨nu, depth⟩ : URLData)]).length ≤ maxUrls
      simp only [List.length_append, List.length_cons, List.length_nil]
      omega
    · show ∀ x ∈ urls ++ [(⟨nu, depth⟩ : URLData)], x.depth ≤ maxDepth
      intro x hx
      rcases List.mem_append.mp hx with hx1 | hx1
      · exact h2 x hx1
      · have hx2 : x = ⟨nu, depth⟩ := by simpa using hx1
        rw [hx2]
        exact hdep

/-- Fetch-failure step equation of the crawl loop: a dequeued fresh node
whose fetch returns no content is recorded, contributes no queue entries,
and the crawl continues on the remaining frontier with the node visited. -/
theorem crawlLoop_fetchfail_step (net : String → AxiosOutcome)
    (maxUrls maxDepth : Nat) (url : String) (depth : Nat)
    (rest : List (String × Nat)) (visited : List String)
    (urls : List URLData) (nu : String)
    (hlen : urls.length < maxUrls)
    (hcanon : canon url = some nu)
    (hvis : visited.contains nu = false)
    (hdepth : depth ≤ maxDepth)
    (hfetch : fetchPage net nu = none) :
    crawlLoop net maxUrls maxDepth ((url, depth) :: rest) visited urls =
      crawlLoop net maxUrls maxDepth rest (visited ++ [nu])
        (urls ++ [⟨nu, depth⟩]) := by
  have hguard : ¬ maxUrls ≤ urls.length := by omega
  have hcond : ¬ (visited.contains nu || decide (depth > maxDepth)) = true := by
    rw [hvis]
    simp
    omega
  rw [crawlLoop.eq_def]
  dsimp only
  rw [dif_neg hguard, hcanon]
  dsimp only
  rw [if_neg hcond]
  simp only [hfetch, ite_self, List.map_nil, List.append_nil]

/-! ### Claims C1, C2 and C9: the crawler -/

/-- Claim C2: for every crawl, every returned record has depth at most
maxDepth and the result list length never exceeds maxUrls, for every
network behavior. -/
theorem claim_C2_crawl_bounds (net : String → AxiosOutcome)
    (startUrl : String) (maxUrls maxDepth : Nat) :
    (crawlWebsite net startUrl maxUrls maxDepth).length ≤ maxUrls ∧
    ∀ r ∈ crawlWebsite net startUrl maxUrls maxDepth, r.depth ≤ maxDepth := by
  unfold crawlWebsite
  exact crawlLoop_bounds net maxUrls maxDepth [(startUrl, 0)] [] []
    (by simp) (by simp)

/-- Claim C9: a fetch failure for a dequeued fresh node is non-fatal: the
node stays in the result with its depth, contributes zero outbound links,
and the crawl continues on the remaining frontier. -/
theorem claim_C9_fetch_failure_nonfatal (net : String → AxiosOutcome)
    (maxUrls maxDepth : Nat) (url : String) (depth : Nat)
    (rest : List (String × Nat)) (visited : List String)
    (urls : List URLData) (nu : String)
    (hlen : urls.length < maxUrls)
    (hcanon : canon url = some nu)
    (hvis : visited.contains nu = false)
    (hdepth : depth ≤ maxDepth)
    (hfetch : fetchPage net nu = none) :
    crawlLoop net maxUrls maxDepth ((url, depth) :: rest) visited urls =
      crawlLoop net maxUrls maxDepth rest (visited ++ [nu])
        (urls ++ [⟨nu, depth⟩]) ∧
    ⟨nu, depth⟩ ∈ crawlLoop net maxUrls maxDepth ((url, depth) :: rest)
      visited urls := by
  have hstep := crawlLoop_fetchfail_step net maxUrls maxDepth url depth rest
    visited urls nu hlen hcanon hvis hdepth hfetch
  refine ⟨hstep, ?_⟩
  rw [hstep]
  exact mem_crawlLoop_acc net maxUrls maxDepth _ rest (visited ++ [nu]) _
    (List.mem_append_right _ (by simp))

/-- Witness for claim C9 at a concrete crawl state whose fetch collaborator
always fails. -/
theorem claim_C9_witness :
    crawlLoop (fun _ => AxiosOutcome.netErr) 3 5
        [("https://a.com", 0)] [] [] =
      crawlLoop (fun _ => AxiosOutcome.netErr) 3 5 [] ["https://a.com"]
        [⟨"https://a.com", 0⟩] ∧
    ⟨"https://a.com", 0⟩ ∈ crawlLoop (fun _ => AxiosOutcome.netErr) 3 5
        [("https://a.com", 0)] [] [] :=
  claim_C9_fetch_failure_nonfatal (fun _ => AxiosOutcome.netErr) 3 5
    "https://a.com" 0 [] [] [] "https://a.com"
    (by decide) (by decide) (by decide) (by decide) rfl

/-- Claim C1 (code bug): the scan endpoint ignores the excludeUrls list the
client sends.  First conjunct: the response is entirely independent of the
excludeUrls field.  Second conjunct: at the concrete failing input whose
excludeUrls contains the seed itself, the seed is still crawled and
returned. -/
theorem claim_C1_exclude_urls_ignored :
    (∀ (net : String → AxiosOutcome) (u : Option String) (mu md : Option Nat)
        (kw ws e1 e2 : List String),
        scanPOST net ⟨u, mu, md, kw, ws, e1⟩ =
          scanPOST net ⟨u, mu, md, kw, ws, e2⟩) ∧
    scanPOST (fun _ => AxiosOutcome.netErr)
        ⟨some "https://example.edu", some 200, some 5, [], [],
          ["https://example.edu"]⟩ =
      ScanResponse.ok [⟨"https://example.edu", 0⟩] 1 [] [] ∧
    "https://example.edu" ∈ (["https://example.edu"] : List String) := by
  refine ⟨fun net u mu md kw ws e1 e2 => rfl, ?_, by decide⟩
  have hcrawl : crawlLoop (fun _ => AxiosOutcome.netErr) 200 5
      [("https://example.edu", 0)] [] [] = [⟨"https://example.edu", 0⟩] := by
    rw [crawlLoop_fetchfail_step (fun _ => AxiosOutcome.netErr) 200 5
      "https://example.edu" 0 [] [] [] "https://example.edu"
      (by decide) (by decide) (by decide) (by decide) rfl]
    rw [crawlLoop_nil]
    rfl
  have hok : scanPOST (fun _ => AxiosOutcome.netErr)
      ⟨some "https://example.edu", some 200, some 5, [], [],
        ["https://example.edu"]⟩ =
      ScanResponse.ok
        (crawlLoop (fun _ => AxiosOutcome.netErr) 200 5
          [("https://example.edu", 0)] [] [])
        (crawlLoop (fun _ => AxiosOutcome.netErr) 200 5
          [("https://example.edu", 0)] [] []).length [] [] := rfl
  rw [hok, hcrawl]
  rfl

/-! ### The analyzer fetcher -/

/-- Splice of replacements into a text: the segments between the matches
are kept, each match span is replaced. -/
def spliceGo (s : List Char) : Nat → List (Nat × Nat × List Char) → List Char
  | pos, [] => s.drop pos
  | pos, (i, L, r) :: rest => ((s.drop pos).take (i - pos)) ++ r ++ spliceGo s (i + L) rest

/-- JS global replace driven by a matcher that yields the replacement. -/
def jsReplaceAll (matchAt : List Char → Nat → Option (Nat × List Char))
    (s : List Char) : List Char :=
  spliceGo s 0 (scanMatchesV matchAt s)

/-- First position at or after start where a pattern matches
case-insensitively. -/
def findFirstCI (pat : List Char) (s : List Char) (start : Nat) : Option Nat :=
  (List.range s.length).find? fun m => decide (start ≤ m) && matchCIAt pat s m

/-- Matcher for the script-block removal regex of fetchPageContent: the
literal opening script tag with attribute junk, then lazily up to the
first closing script tag. -/
def scriptMatchAt (s : List Char) (i : Nat) : Option (Nat × List Char) :=
  if matchCIAt "<script".data s i then
    let j := i + 7 + runLength (fun c => !(c = '>')) s (i + 7)
    if s.getD j ' ' = '>' then
      match findFirstCI "</script>".data s (j + 1) with
      | some m => some (m + 9 - i, [])
      | none => none
    else none
  else none

/-- Matcher for the style-block removal regex of fetchPageContent. -/
def styleMatchAt (s : List Char) (i : Nat) : Option (Nat × List Char) :=
  if matchCIAt "<style".data s i then
    let j := i + 6 + runLength (fun c => !(c = '>')) s (i + 6)
    if s.getD j ' ' = '>' then
      match findFirstCI "</style>".data s (j + 1) with
      | some m => some (m + 8 - i, [])
      | none => none
    else none
  else none

/-- Matcher for the tag-stripping regex of fetchPageContent: a less-than
sign, one or more non-greater-than characters, a greater-than sign,
replaced by one space. -/
def tagMatchAt (s : List Char) (i : Nat) : Option (Nat × List Char) :=
  if s.getD i ' ' = '<' then
    let cnt := runLength (fun c => !(c = '>')) s (i + 1)
    if 0 < cnt && (s.getD (i + 1 + cnt) ' ' = '>') then
      some (cnt + 2, [' '])
    else none
  else none

/-- Text extraction pipeline of fetchPageContent: remove script blocks,
remove style blocks, strip tags to spaces, collapse whitespace, trim, and
truncate to 30000 characters. -/
def extractText (html : List Char) : List Char :=
  (jsTrim (collapseWs (jsReplaceAll tagMatchAt
    (jsReplaceAll styleMatchAt (jsReplaceAll scriptMatchAt html))))).take 30000

/-- Matcher for the title regex of fetchPageContent: the literal title
open tag with attribute junk, a nonempty run of non-less-than characters
captured, and the closing title tag. -/
def titleAt (s : List Char) (i : Nat) : Option (List Char) :=
  if matchCIAt "<title".data s i then
    let j := i + 6 + runLength (fun c => !(c = '>')) s (i + 6)
    if s.getD j ' ' = '>' then
      let cap := (s.drop (j + 1)).takeWhile fun c => !(c = '<')
      if 0 < cap.length && matchCIAt "</title>".data s (j + 1 + cap.length) then
        some cap
      else none
    else none
  else none

/-- Title extraction of fetchPageContent: the trimmed capture of the first
title match, or the empty string. -/
def extractTitle (s : List Char) : List Char :=
  match (List.range s.length).findSome? (fun i => titleAt s i) with
  | some cap => jsTrim cap
  | none => []

/-- Page content assembled by fetchPageContent. -/
structure PageContent where
  html : String
  text : String
  title : String
deriving DecidableEq, Repr

/-- fetchPageContent of analyze/route.ts: axios.get with validateStatus
accepting every status strictly below 500 (so 4xx responses do not throw),
a falsy body mapped to null, and otherwise the html with its extracted
text and title; thrown errors (network failure, timeout, 5xx status) are
caught and become null. -/
def fetchPageContent (net : String → AxiosOutcome) (url : String) :
    Option PageContent :=
  match net url with
  | .netErr => none
  | .resp status data =>
      if status < 500 then
        if data = "" then none
        else some ⟨data, ⟨extractText data.data⟩, ⟨extractTitle data.data⟩⟩
      else none

/-! ### The classifier and the analyze handler -/

/-- Outcome of one chatCompletion call to the completion collaborator:
either generated text, or a thrown value; a thrown JS value is either an
Error carrying a message or some other value. -/
inductive CompletionOutcome where
  | ok (text : String) : CompletionOutcome
  | thrown (isError : Bool) (msg : String) : CompletionOutcome

/-- Loosely-typed object decoded by JSON.parse from the model response:
each expected field is either present with a truthy value, or absent
(which also stands for a falsy value, since the source reads the string
fields with the JS or-default operator).  The confidence and notes fields
are passed through without an or-default, so an empty string is kept
distinct there; an empty confidence fails the membership check exactly as
an absent one does, which the model reflects by mapping both to none. -/
structure Parsed where
  primary_audience : Option String
  task_category : Option String
  reference_type : Option String
  workday_feature : Option String
  proposed_replacement : Option String
  suggested_keywords : Option (List String)
  confidence : Option String
  notes : Option String
deriving DecidableEq, Repr

/-- Outcome of one JSON.parse call: a decoded object or a thrown
SyntaxError with its message. -/
inductive JsonParseOutcome where
  | jok (p : Parsed) : JsonParseOutcome
  | jthrow (msg : String) : JsonParseOutcome

/-- Finding record of analyze/route.ts. -/
structure Finding where
  html_context : String
  primary_audience : String
  task_category : String
  reference_type : String
  workday_feature : String
  proposed_replacement : String
  suggested_keywords : List String
  confidence : String
  notes : Option String
deriving DecidableEq, Repr

/-- Opening brace character, written by code point. -/
def lbrace : Char := Char.ofNat 123

/-- Closing brace character, written by code point. -/
def rbrace : Char := Char.ofNat 125

/-- Model of the response.match call with the brace regex: the greedy
any-character star makes the match run from the first opening brace to the
last closing brace, provided that closing brace comes after the opening
one. -/
def braceMatch (s : List Char) : Option (List Char) :=
  match s.findIdx? (fun c => c = lbrace) with
  | none => none
  | some a =>
      match s.reverse.findIdx? (fun c => c = rbrace) with
      | none => none
      | some br =>
          let b := s.length - 1 - br
          if a < b then some (jsSlice s a (b + 1)) else none

/-- Matcher for the legacy-term replacement regex of the fallback branches:
word-boundary (cougar whitespace-star web | cougarweb | colleague)
word-boundary, flags g and i, replaced by the literal Workday. -/
def legacyTermAt (s : List Char) (i : Nat) : Option (Nat × List Char) :=
  match cougarMatchLenAt s i with
  | some L => some (L, "Workday".data)
  | none =>
      match colleagueMatchLenAt s i with
      | some L => some (L, "Workday".data)
      | none => none

/-- Text substitution of the matched legacy terms by Workday, the replace
call of the fallback branches. -/
def legacyReplace (s : List Char) : List Char := jsReplaceAll legacyTermAt s

/-- Fixed opening sentence of the classification prompt. -/
def promptHeader : String :=
  "You are analyzing college web content for a Workday migration. The college is moving from CougarWeb and Colleague to Workday."

/-- Stand-in label for the fixed instruction body of the prompt (rules,
six numbered steps, mapping guidance and the JSON response template of
analyze/route.ts lines 159 to 194).  The prompt is consumed only by the
completion collaborator, which this model treats as an oracle keyed on the
whole prompt string, so the fixed text takes part in the key but its exact
wording carries no semantic weight in any claim. -/
def promptInstructions : String :=
  "RULES, STEP 1 to STEP 6 and the JSON response template of the source."

/-- Prompt construction of the analyze handler: the migration context, the
optional work-stream hint sentence, the optional keyword hint sentence,
the fixed instructions and the snippet. -/
def buildPrompt (workStreamAreas keywords : List String) (snippet : String) :
    String :=
  promptHeader ++ "\n" ++
    (if 0 < workStreamAreas.length then
      "The college provided these work stream areas to consider: " ++
        String.intercalate ", " workStreamAreas ++ "."
    else "") ++ "\n" ++
    (if 0 < keywords.length then
      "Additional keywords to consider: " ++ String.intercalate ", " keywords ++ "."
    else "") ++ "\n" ++ promptInstructions ++
    "\nSnippet to analyze:\n" ++ snippet

/-- Finding assembled from a decoded object, with the per-field defaulting
and the confidence membership check of the source. -/
def mkParsedFinding (snippet : String) (p : Parsed) : Finding :=
  ⟨snippet,
    p.primary_audience.getD "mixed/other",
    p.task_category.getD "generic_system_reference",
    p.reference_type.getD "informational_reference",
    p.workday_feature.getD "Workday – unified cloud-based system",
    p.proposed_replacement.getD snippet,
    p.suggested_keywords.getD ["Workday"],
    (match p.confidence with
     | some c => if c = "high" ∨ c = "medium" ∨ c = "low" then c else "low"
     | none => "low"),
    p.notes⟩

/-- Locally synthesized Finding of the fallback branches: generic category
defaults, the legacy terms substituted in the replacement text, confidence
forced to low and the given note attached. -/
def fallbackFinding (snippet : String) (noteText : String) : Finding :=
  ⟨snippet, "mixed/other", "generic_system_reference",
    "informational_reference", "Workday – unified cloud-based system",
    ⟨legacyReplace snippet.data⟩, ["Workday"], "low", some noteText⟩

/-- Per-snippet classification of the analyze handler: call the completion
collaborator on the built prompt; on a thrown value synthesize the
fallback with the Error message or the fixed text for non-Error values; on
text, locate the brace-delimited substring (no match yields the fixed
unparseable note), decode it (a parse throw lands in the same catch as a
completion throw, with the SyntaxError message as the note), and otherwise
build the Finding from the decoded fields. -/
def classifySnippet (llm : String → CompletionOutcome)
    (jparse : String → JsonParseOutcome)
    (workStreamAreas keywords : List String) (snippet : String) : Finding :=
  match llm (buildPrompt workStreamAreas keywords snippet) with
  | .thrown isErr msg =>
      fallbackFinding snippet (if isErr then msg else "Analysis failed")
  | .ok resp =>
      match braceMatch resp.data with
      | none => fallbackFinding snippet "AI response could not be parsed"
      | some j =>
          match jparse (String.mk j) with
          | .jthrow msg => fallbackFinding snippet msg
          | .jok p => mkParsedFinding snippet p

/-- Per-URL result record of the analyze handler. -/
structure AnalysisResult where
  url : String
  pageTitle : String
  hasLegacyReferences : Bool
  findings : List Finding
deriving DecidableEq, Repr

/-- Processing of one URL in the analyze loop: a failed fetch yields the
empty row, a page without snippets yields a titled row without findings,
and otherwise every snippet is classified in order. -/
def processUrl (net : String → AxiosOutcome)
    (llm : String → CompletionOutcome) (jparse : String → JsonParseOutcome)
    (keywords workStreamAreas : List String) (url : String) : AnalysisResult :=
  match fetchPageContent net url with
  | none => ⟨url, "", false, []⟩
  | some pc =>
      if (findLegacySnippets pc.html pc.text).isEmpty then
        ⟨url, pc.title, false, []⟩
      else
        ⟨url, pc.title, true,
          (findLegacySnippets pc.html pc.text).map fun sh =>
            classifySnippet llm jparse workStreamAreas keywords sh.snippet⟩

/-- Request body of the analyze endpoint. -/
structure AnalyzeBody where
  urls : Option (List String)
  keywords : List String
  workStreamAreas : List String

/-- Response of the analyze endpoint. -/
inductive AnalyzeResponse where
  | ok (results : List AnalysisResult) : AnalyzeResponse
  | err (status : Nat) (msg : String) : AnalyzeResponse
deriving DecidableEq

/-- POST handler of analyze/route.ts: validate the URL list, then process
each URL sequentially in input order. -/
def analyzePOST (net : String → AxiosOutcome)
    (llm : String → CompletionOutcome) (jparse : String → JsonParseOutcome)
    (body : AnalyzeBody) : AnalyzeResponse :=
  match body.urls with
  | none => .err 400 "urls array is required"
  | some urls =>
      if urls.isEmpty then .err 400 "urls array is required"
      else if urls.length > 500 then .err 400 "Maximum 500 URLs per request"
      else .ok (urls.map
        (processUrl net llm jparse body.keywords body.workStreamAreas))

/-! ### Lemmas about the analyze handler -/

theorem analyzePOST_ok (net : String → AxiosOutcome)
    (llm : String → CompletionOutcome) (jparse : String → JsonParseOutcome)
    (urls : List String) (kw ws : List String)
    (h1 : urls ≠ []) (h2 : urls.length ≤ 500) :
    analyzePOST net llm jparse ⟨some urls, kw, ws⟩ =
      AnalyzeResponse.ok (urls.map (processUrl net llm jparse kw ws)) := by
  unfold analyzePOST
  dsimp only
  rw [if_neg (by simpa [List.isEmpty_iff] using h1)]
  rw [if_neg (by omega)]

theorem processUrl_url (net : String → AxiosOutcome)
    (llm : String → CompletionOutcome) (jparse : String → JsonParseOutcome)
    (kw ws : List String) (url : String) :
    (processUrl net llm jparse kw ws url).url = url := by
  unfold processUrl
  cases hfc : fetchPageContent net url with
  | none => rfl
  | some pc =>
      dsimp only
      by_cases hs : (findLegacySnippets pc.html pc.text).isEmpty = true
      · rw [if_pos hs]
      · rw [if_neg hs]

theorem processUrl_findings_iff (net : String → AxiosOutcome)
    (llm : String → CompletionOutcome) (jparse : String → JsonParseOutcome)
    (kw ws : List String) (url : String) :
    ((processUrl net llm jparse kw ws url).findings = [] ↔
      (processUrl net llm jparse kw ws url).hasLegacyReferences = false) := by
  unfold processUrl
  cases hfc : fetchPageContent net url with
  | none => simp
  | some pc =>
      dsimp only
      by_cases hs : (findLegacySnippets pc.html pc.text).isEmpty = true
      · rw [if_pos hs]
        simp
      · rw [if_neg hs]
        dsimp only
        simp only [List.map_eq_nil_iff]
        constructor
        · intro h0
          exact absurd (List.isEmpty_iff.mpr h0) hs
        · intro h0
          exact absurd h0 (by decide)

/-! ### Claim C6: findings and the flag are consistent -/

/-- Claim C6: in every result produced by the analyze handler, the
findings list is empty exactly when hasLegacyReferences is false, for
every network, completion and parse behavior. -/
theorem claim_C6_findings_iff_flag (net : String → AxiosOutcome)
    (llm : String → CompletionOutcome) (jparse : String → JsonParseOutcome)
    (body : AnalyzeBody) (results : List AnalysisResult)
    (h : analyzePOST net llm jparse body = AnalyzeResponse.ok results) :
    ∀ r ∈ results, (r.findings = [] ↔ r.hasLegacyReferences = false) := by
  intro r hr
  unfold analyzePOST at h
  cases hu : body.urls with
  | none => rw [hu] at h; cases h
  | some urls =>
      rw [hu] at h
      dsimp only at h
      by_cases h1 : urls.isEmpty = true
      · rw [if_pos h1] at h; cases h
      rw [if_neg h1] at h
      by_cases h2 : urls.length > 500
      · rw [if_pos h2] at h; cases h
      rw [if_neg h2] at h
      cases h
      rcases List.mem_map.mp hr with ⟨u, hu2, rfl⟩
      exact processUrl_findings_iff net llm jparse body.keywords
        body.workStreamAreas u

/-- Witness for claim C6: a concrete analyze run whose single URL fails to
fetch. -/
theorem claim_C6_witness :
    ((⟨"https://a.com", "", false, []⟩ : AnalysisResult).findings = [] ↔
      (⟨"https://a.com", "", false, []⟩ : AnalysisResult).hasLegacyReferences =
        false) :=
  claim_C6_findings_iff_flag (fun _ => AxiosOutcome.netErr)
    (fun _ => CompletionOutcome.thrown true "x")
    (fun _ => JsonParseOutcome.jthrow "x")
    ⟨some ["https://a.com"], [], []⟩
    [⟨"https://a.com", "", false, []⟩] rfl
    ⟨"https://a.com", "", false, []⟩ (by simp)

/-! ### Claim C10: one result per input URL -/

/-- Claim C10: for a nonempty URL list of at most 500 entries the analyze
handler returns exactly one result per input URL, in input order, and a
URL whose fetch fails still yields a row with empty title, a false flag
and no findings. -/
theorem claim_C10_analyze_per_url (net : String → AxiosOutcome)
    (llm : String → CompletionOutcome) (jparse : String → JsonParseOutcome)
    (urls : List String) (kw ws : List String)
    (h1 : urls ≠ []) (h2 : urls.length ≤ 500) :
    analyzePOST net llm jparse ⟨some urls, kw, ws⟩ =
      AnalyzeResponse.ok (urls.map (processUrl net llm jparse kw ws)) ∧
    (urls.map (processUrl net llm jparse kw ws)).length = urls.length ∧
    (urls.map (processUrl net llm jparse kw ws)).map (fun r => r.url) = urls ∧
    ∀ r ∈ urls.map (processUrl net llm jparse kw ws),
      fetchPageContent net r.url = none →
        r.pageTitle = "" ∧ r.hasLegacyReferences = false ∧ r.findings = [] := by
  refine ⟨analyzePOST_ok net llm jparse urls kw ws h1 h2, by simp, ?_, ?_⟩
  · rw [List.map_map]
    exact (List.map_congr_left fun u _ =>
      processUrl_url net llm jparse kw ws u).trans (List.map_id urls)
  · intro r hr hfc
    rcases List.mem_map.mp hr with ⟨u, hu, rfl⟩
    rw [processUrl_url net llm jparse kw ws u] at hfc
    unfold processUrl
    rw [hfc]
    exact ⟨rfl, rfl, rfl⟩

/-- Witness for claim C10 at a concrete single-URL run with a failing
network collaborator. -/
theorem claim_C10_witness :
    analyzePOST (fun _ => AxiosOutcome.netErr)
        (fun _ => CompletionOutcome.thrown true "x")
        (fun _ => JsonParseOutcome.jthrow "x")
        ⟨some ["https://a.com"], [], []⟩ =
      AnalyzeResponse.ok (["https://a.com"].map
        (processUrl (fun _ => AxiosOutcome.netErr)
          (fun _ => CompletionOutcome.thrown true "x")
          (fun _ => JsonParseOutcome.jthrow "x") [] [])) ∧
    (["https://a.com"].map (processUrl (fun _ => AxiosOutcome.netErr)
      (fun _ => CompletionOutcome.thrown true "x")
      (fun _ => JsonParseOutcome.jthrow "x") [] [])).length =
      (["https://a.com"] : List String).length ∧
    (["https://a.com"].map (processUrl (fun _ => AxiosOutcome.netErr)
      (fun _ => CompletionOutcome.thrown true "x")
      (fun _ => JsonParseOutcome.jthrow "x") [] [])).map (fun r => r.url) =
      ["https://a.com"] ∧
    ∀ r ∈ ["https://a.com"].map (processUrl (fun _ => AxiosOutcome.netErr)
      (fun _ => CompletionOutcome.thrown true "x")
      (fun _ => JsonParseOutcome.jthrow "x") [] []),
      fetchPageContent (fun _ => AxiosOutcome.netErr) r.url = none →
        r.pageTitle = "" ∧ r.hasLegacyReferences = false ∧ r.findings = [] :=
  claim_C10_analyze_per_url (fun _ => AxiosOutcome.netErr)
    (fun _ => CompletionOutcome.thrown true "x")
    (fun _ => JsonParseOutcome.jthrow "x")
    ["https://a.com"] [] [] (by decide) (by decide)

/-! ### Claim C8: fetch failure handling -/

/-- Counterexample to claim C8 as stated: a non-success HTTP status is not
uniformly treated as no content.  The analyzer fetcher accepts every
status below 500, so a 404 response with a body is returned as page
content. -/
theorem claim_C8_counterexample :
    (fetchPageContent
        (fun _ => AxiosOutcome.resp 404 "<html><body>Lost page</body></html>")
        "https://example.edu/missing").isSome = true := rfl

/-- Claim C8 (amended): both fetchers are total and never propagate a
failure; the crawler fetcher maps network errors and every non-2xx status
to no content; the analyzer fetcher maps network errors, 5xx statuses and
empty bodies to no content, but returns any response with status below
500 and a nonempty body as content. -/
theorem claim_C8_fetch_failure_uniform :
    (∀ (net : String → AxiosOutcome) (url : String),
        net url = AxiosOutcome.netErr →
        fetchPage net url = none ∧ fetchPageContent net url = none) ∧
    (∀ (net : String → AxiosOutcome) (url : String) (st : Nat) (d : String),
        net url = AxiosOutcome.resp st d → ¬(200 ≤ st ∧ st < 300) →
        fetchPage net url = none) ∧
    (∀ (net : String → AxiosOutcome) (url : String) (st : Nat) (d : String),
        net url = AxiosOutcome.resp st d → 500 ≤ st →
        fetchPageContent net url = none) ∧
    (∀ (net : String → AxiosOutcome) (url : String) (st : Nat),
        net url = AxiosOutcome.resp st "" →
        fetchPageContent net url = none) ∧
    (∀ (net : String → AxiosOutcome) (url : String) (st : Nat) (d : String),
        net url = AxiosOutcome.resp st d → st < 500 → d ≠ "" →
        fetchPageContent net url =
          some ⟨d, ⟨extractText d.data⟩, ⟨extractTitle d.data⟩⟩) := by
  refine ⟨?_, ?_, ?_, ?_, ?_⟩
  · intro net url h
    unfold fetchPage fetchPageContent
    rw [h]
    exact ⟨rfl, rfl⟩
  · intro net url st d h hst
    unfold fetchPage
    rw [h]
    dsimp only
    rw [if_neg hst]
  · intro net url st d h hst
    unfold fetchPageContent
    rw [h]
    dsimp only
    rw [if_neg (by omega)]
  · intro net url st h
    unfold fetchPageContent
    rw [h]
    dsimp only
    by_cases h5 : st < 500
    · rw [if_pos h5, if_pos rfl]
    · rw [if_neg h5]
  · intro net url st d h h5 hd
    unfold fetchPageContent
    rw [h]
    dsimp only
    rw [if_pos h5, if_neg hd]

/-- Witness for the amended claim C8 at concrete collaborator outcomes. -/
theorem claim_C8_witness :
    (fetchPage (fun _ => AxiosOutcome.netErr) "https://a.com" = none ∧
      fetchPageContent (fun _ => AxiosOutcome.netErr) "https://a.com" = none) ∧
    fetchPage (fun _ => AxiosOutcome.resp 404 "gone") "https://a.com" = none ∧
    fetchPageContent (fun _ => AxiosOutcome.resp 503 "down") "https://a.com" =
      none ∧
    fetchPageContent (fun _ => AxiosOutcome.resp 200 "") "https://a.com" =
      none ∧
    fetchPageContent (fun _ => AxiosOutcome.resp 404 "<p>hi there</p>")
        "https://a.com" =
      some ⟨"<p>hi there</p>", ⟨extractText "<p>hi there</p>".data⟩,
        ⟨extractTitle "<p>hi there</p>".data⟩⟩ :=
  ⟨claim_C8_fetch_failure_uniform.1 _ "https://a.com" rfl,
    claim_C8_fetch_failure_uniform.2.1 _ "https://a.com" 404 "gone" rfl
      (by omega),
    claim_C8_fetch_failure_uniform.2.2.1 _ "https://a.com" 503 "down" rfl
      (by omega),
    claim_C8_fetch_failure_uniform.2.2.2.1 _ "https://a.com" 200 rfl,
    claim_C8_fetch_failure_uniform.2.2.2.2 _ "https://a.com" 404
      "<p>hi there</p>" rfl (by omega) (by decide)⟩

/-! ### Claim C4: classification failure fallback -/

/-- Counterexample to claim C4 as stated: a completion call that throws an
Error whose own message is empty produces a Finding whose notes field is
the empty string, because the catch branch copies the thrown message
verbatim into notes. -/
theorem claim_C4_counterexample :
    (classifySnippet (fun _ => CompletionOutcome.thrown true "")
        (fun _ => JsonParseOutcome.jthrow "x") [] []
        "Log in to CougarWeb to register for classes").notes = some "" := rfl

/-- Claim C4 (amended): every classification failure path yields a Finding
with confidence low and a notes field carrying the cause, and the failure
never escapes the classifier: a thrown value gives the Error message (or
the fixed text Analysis failed for a non-Error value, so notes is empty
only when a thrown Error carries an empty message), an unparseable
response gives the fixed non-empty note, a JSON parse throw gives the
SyntaxError message, and the analyze handler still returns a result list
for every completion and parse behavior. -/
theorem claim_C4_failure_fallback (llm : String → CompletionOutcome)
    (jparse : String → JsonParseOutcome) (ws kw : List String)
    (snippet : String) :
    (∀ (isErr : Bool) (msg : String),
        llm (buildPrompt ws kw snippet) = CompletionOutcome.thrown isErr msg →
        (classifySnippet llm jparse ws kw snippet).confidence = "low" ∧
        (classifySnippet llm jparse ws kw snippet).notes =
          some (if isErr then msg else "Analysis failed")) ∧
    (∀ resp : String, llm (buildPrompt ws kw snippet) = CompletionOutcome.ok resp →
        braceMatch resp.data = none →
        (classifySnippet llm jparse ws kw snippet).confidence = "low" ∧
        (classifySnippet llm jparse ws kw snippet).notes =
          some "AI response could not be parsed") ∧
    (∀ (resp : String) (j : List Char) (msg : String),
        llm (buildPrompt ws kw snippet) = CompletionOutcome.ok resp →
        braceMatch resp.data = some j →
        jparse (String.mk j) = JsonParseOutcome.jthrow msg →
        (classifySnippet llm jparse ws kw snippet).confidence = "low" ∧
        (classifySnippet llm jparse ws kw snippet).notes = some msg) ∧
    (∀ (net : String → AxiosOutcome) (urls : List String), urls ≠ [] →
        urls.length ≤ 500 →
        analyzePOST net llm jparse ⟨some urls, kw, ws⟩ =
          AnalyzeResponse.ok (urls.map (processUrl net llm jparse kw ws))) := by
  refine ⟨?_, ?_, ?_, ?_⟩
  · intro isErr msg h
    unfold classifySnippet
    rw [h]
    exact ⟨rfl, rfl⟩
  · intro resp h hb
    unfold classifySnippet
    rw [h]
    dsimp only
    rw [hb]
    exact ⟨rfl, rfl⟩
  · intro resp j msg h hb hj
    unfold classifySnippet
    rw [h]
    dsimp only
    rw [hb]
    dsimp only
    rw [hj]
    exact ⟨rfl, rfl⟩
  · intro net urls h1 h2
    exact analyzePOST_ok net llm jparse urls kw ws h1 h2

/-- Witness for the amended claim C4: a thrown transport error with a
non-empty message yields a low-confidence Finding carrying that message. -/
theorem claim_C4_witness :
    (classifySnippet (fun _ => CompletionOutcome.thrown true "socket hang up")
        (fun _ => JsonParseOutcome.jthrow "Unexpected token") [] []
        "Use CougarWeb to check grades").confidence = "low" ∧
    (classifySnippet (fun _ => CompletionOutcome.thrown true "socket hang up")
        (fun _ => JsonParseOutcome.jthrow "Unexpected token") [] []
        "Use CougarWeb to check grades").notes =
      some (if true then "socket hang up" else "Analysis failed") :=
  (claim_C4_failure_fallback
    (fun _ => CompletionOutcome.thrown true "socket hang up")
    (fun _ => JsonParseOutcome.jthrow "Unexpected token") [] []
    "Use CougarWeb to check grades").1 true "socket hang up" rfl

/-- Claim C3: a page text in which no occurrence of the word colleague has a
disambiguation-vocabulary term inside the 200-character window around it
yields no snippet from the colleague rule (the detector output is exactly
the direct-rule output); and a page text with a single colleague occurrence
near the phrase student records system yields exactly one snippet. -/
theorem claim_C3_colleague_disambiguation :
    (∀ html text : String,
        (∀ m ∈ scanMatches colleagueMatchLenAt text.data,
            hasSystemWord (colleagueWindow text.data m.1) = false) →
        findLegacySnippets html text = cougarPass text.data) ∧
    findLegacySnippets "" "Ask a colleague to update the student records system today." =
      [⟨"Ask a colleague to update the student records system today.", 6⟩] := by
  constructor
  · intro html text h
    unfold findLegacySnippets colleaguePass
    exact colleagueFold_skip h
  · decide

/-- Witness for claim C3: a conversational colleague sentence produces only
the direct-rule output (which is empty for it), and the student-records
sentence produces its single snippet. -/
theorem claim_C3_witness :
    findLegacySnippets "" "Please consult your colleague about lunch plans today." =
      cougarPass ("Please consult your colleague about lunch plans today.").data ∧
    findLegacySnippets "" "Ask a colleague to update the student records system today." =
      [⟨"Ask a colleague to update the student records system today.", 6⟩] :=
  ⟨claim_C3_colleague_disambiguation.1 ""
      "Please consult your colleague about lunch plans today." (by decide),
    claim_C3_colleague_disambiguation.2⟩

/-- Counterexample to claim C5 as stated: the page text consisting of the
bare token CougarWeb contains a direct match of the product-name token, yet
the detector returns no snippet at all, because the surrounding context
window is only 9 characters long and the source keeps a snippet only when
its length exceeds 20. -/
theorem claim_C5_counterexample :
    findLegacySnippets "" "CougarWeb" = [] := by decide

/-- Claim C5 (amended): every direct match of the product-name token whose
collapsed trimmed context window is longer than 20 characters is represented
by a snippet with that exact text in the detector output. -/
theorem claim_C5_direct_match_represented (html text : String) (m : Nat × Nat)
    (hm : m ∈ scanMatches cougarMatchLenAt text.data)
    (hlen : 20 < (cougarSnippetAt text.data m.1).length) :
    ∃ hit ∈ findLegacySnippets html text,
      hit.snippet = cougarSnippetAt text.data m.1 := by
  unfold findLegacySnippets colleaguePass cougarPass
  rcases @cougarFold_represented text.data
      (scanMatches cougarMatchLenAt text.data) [] m hm hlen with ⟨hit, hh, he⟩
  exact ⟨hit, mem_foldl_colleagueStep hh, he⟩

/-- Witness for the amended claim C5 at a concrete page text with one
direct CougarWeb match and a long enough context window. -/
theorem claim_C5_witness :
    ∃ hit ∈ findLegacySnippets "" "Please log in to CougarWeb to register for classes.",
      hit.snippet =
        cougarSnippetAt ("Please log in to CougarWeb to register for classes.").data 17 :=
  claim_C5_direct_match_represented ""
    "Please log in to CougarWeb to register for classes." (17, 9)
    (by decide) (by decide)

end Workday
